import Mathlib

/-!
# Gravity simulation core (`2dGravitySimulation/main.cpp`)

Shallow embedding of `GravitySystem` and of the data it works on
(`CircleObject`, `RectObject` from `renderer.h`).

Conventions of the embedding.

* `float` is modelled by an arbitrary linearly ordered field `F` (exact
  arithmetic); every function that calls `sqrt`, `glm::length` or
  `glm::inversesqrt` takes the square-root function as its first argument.
  Statements that depend on what a square root is are stated over `ℝ` with
  `Real.sqrt`; concrete evaluations use `ℚ` with `Rat.sqrt` or `ℝ`.
* Division is the total division of the field (`x / 0 = 0`).  The divisors the
  code executes are listed separately by the `…Divisors` functions, so that
  statements about division by zero do not depend on that convention.
* `std::vector` is `List`; an indexed in-place write is `List.set`; a counted
  `for` loop is a `foldl` over `List.range` / `List.range'`.
-/

namespace Gravity

/-! ## glm::vec2 -/

/-- The type `glm::vec2` over the scalar type `F`. -/
@[ext]
structure Vec2 (F : Type) where
  x : F
  y : F
deriving DecidableEq

namespace Vec2

variable {F : Type} [LinearOrderedField F]

instance : Zero (Vec2 F) := ⟨⟨0, 0⟩⟩
instance : Add (Vec2 F) := ⟨fun a b => ⟨a.x + b.x, a.y + b.y⟩⟩
instance : Sub (Vec2 F) := ⟨fun a b => ⟨a.x - b.x, a.y - b.y⟩⟩
instance : Neg (Vec2 F) := ⟨fun a => ⟨-a.x, -a.y⟩⟩

/-- Vectors form a commutative group under componentwise addition. -/
instance : AddCommGroup (Vec2 F) where
  add_assoc a b c := Vec2.ext (add_assoc a.x b.x c.x) (add_assoc a.y b.y c.y)
  zero_add a := Vec2.ext (zero_add a.x) (zero_add a.y)
  add_zero a := Vec2.ext (add_zero a.x) (add_zero a.y)
  add_comm a b := Vec2.ext (add_comm a.x b.x) (add_comm a.y b.y)
  neg_add_cancel a := Vec2.ext (neg_add_cancel a.x) (neg_add_cancel a.y)
  sub_eq_add_neg a b := Vec2.ext (sub_eq_add_neg a.x b.x) (sub_eq_add_neg a.y b.y)
  nsmul := nsmulRec
  zsmul := zsmulRec

/-- The product `k * v` of a scalar and a vector. -/
def smul (k : F) (v : Vec2 F) : Vec2 F := ⟨k * v.x, k * v.y⟩

/-- The product `v * k` of a vector and a scalar. -/
def muls (v : Vec2 F) (k : F) : Vec2 F := ⟨v.x * k, v.y * k⟩

/-- The quotient `v / k` of a vector by a scalar. -/
def divs (v : Vec2 F) (k : F) : Vec2 F := ⟨v.x / k, v.y / k⟩

/-- The function `glm::dot`. -/
def dot (a b : Vec2 F) : F := a.x * b.x + a.y * b.y

/-- The function `glm::length`: the square root of `dot v v`. -/
def length (sqrt : F → F) (v : Vec2 F) : F := sqrt (dot v v)

end Vec2

/-- The function `glm::inversesqrt`. -/
def inversesqrt {F : Type} [LinearOrderedField F] (sqrt : F → F) (x : F) : F := 1 / sqrt x

/-! ## Scene objects (`renderer.h`) -/

/-- A body: `struct CircleObject`. -/
@[ext]
structure CircleObject (F : Type) where
  position : Vec2 F
  velocity : Vec2 F
  net_force : Vec2 F
  color : F × F × F
  mass : F
  radius : F
deriving DecidableEq

/-- A probe of the vector field: `struct RectObject`. -/
@[ext]
structure RectObject (F : Type) where
  position : Vec2 F
  net_force : Vec2 F
deriving DecidableEq

/-- The private fields of `class GravitySystem`. -/
structure GravitySystem (F : Type) where
  gravity : F
  dt : F

section Code

variable {F : Type} [LinearOrderedField F]

/-- The softening constant `1e-6f` added to the squared distance. -/
def softening : F := 1 / 1000000

/-- The restitution coefficient `e = 0.99999` of `collision`. -/
def restitution : F := 99999 / 100000

/-- The softened squared distance `len * len + 1e-6f` of `updateCircle` and
`updateVectorFieldComponent`, for the separation vector `r`. -/
def softDist (sqrt : F → F) (r : Vec2 F) : F :=
  let len := Vec2.length sqrt r
  len * len + softening

/-- The body of the inner loop of `updateCircle` (lines 192-202): the force
that body `cj` contributes to the net force of body `ci`. -/
def pairForce (sys : GravitySystem F) (sqrt : F → F) (ci cj : CircleObject F) : Vec2 F :=
  let r := cj.position - ci.position
  let dist := softDist sqrt r
  let invDist := inversesqrt sqrt dist
  let dir := r.muls invDist
  let force_mag := sys.gravity * ci.mass * cj.mass * invDist * invDist
  Vec2.smul force_mag dir

/-- One iteration `(i, j)` of the inner loop of the force pass of
`updateCircle`, on the vector `cs`. -/
def forceInner (sys : GravitySystem F) (sqrt : F → F) (cs : List (CircleObject F))
    (i j : Nat) : List (CircleObject F) :=
  if i = j then cs
  else
    match cs[i]?, cs[j]? with
    | some ci, some cj =>
        cs.set i { ci with net_force := ci.net_force + pairForce sys sqrt ci cj }
    | _, _ => cs

/-- One iteration `i` of the outer loop of the force pass of `updateCircle`:
the net force of body `i` is zeroed, then the inner loop runs over all `j`. -/
def forceOuter (sys : GravitySystem F) (sqrt : F → F) (cs : List (CircleObject F))
    (i : Nat) : List (CircleObject F) :=
  let cs0 :=
    match cs[i]? with
    | some ci => cs.set i { ci with net_force := 0 }
    | none => cs
  (List.range cs0.length).foldl (fun acc j => forceInner sys sqrt acc i j) cs0

/-- The force pass of `updateCircle` (lines 185-204). -/
def accumulateForces (sys : GravitySystem F) (sqrt : F → F) (cs : List (CircleObject F)) :
    List (CircleObject F) :=
  (List.range cs.length).foldl (fun acc i => forceOuter sys sqrt acc i) cs

/-- The body of the integration loop of `updateCircle` (lines 207-211). -/
def integrate (sys : GravitySystem F) (circle : CircleObject F) : CircleObject F :=
  let acc := circle.net_force.divs circle.mass
  let velocity := circle.velocity + acc.muls sys.dt
  let position := circle.position + velocity.muls sys.dt
  { circle with velocity := velocity, position := position }

/-- The method `GravitySystem::updateCircle`. -/
def updateCircle (sys : GravitySystem F) (sqrt : F → F) (circles : List (CircleObject F)) :
    List (CircleObject F) :=
  (accumulateForces sys sqrt circles).map (integrate sys)

/-- The body of the inner loop of `updateVectorFieldComponent` (lines
219-228): the force that `circle` contributes at the probe `rect`. -/
def probeForce (sys : GravitySystem F) (sqrt : F → F) (rect : RectObject F)
    (circle : CircleObject F) : Vec2 F :=
  let r := circle.position - rect.position
  let dist := softDist sqrt r
  let invDist := inversesqrt sqrt dist
  let dir := r.muls invDist
  let force_mag := sys.gravity * 1 * circle.mass * invDist * invDist
  Vec2.smul force_mag dir

/-- The method `GravitySystem::updateVectorFieldComponent`. -/
def updateVectorFieldComponent (sys : GravitySystem F) (sqrt : F → F)
    (rects : List (RectObject F)) (circles : List (CircleObject F)) : List (RectObject F) :=
  rects.map fun rect =>
    circles.foldl
      (fun (acc : RectObject F) circle =>
        { acc with net_force := acc.net_force + probeForce sys sqrt acc circle })
      { rect with net_force := 0 }

/-- The body of the inner loop of `collision` (lines 236-258) for the pair
`(i, j)`, on the vector `cs`. The quotient `d / dist` is the total division of
the field: where `dist = 0` (two bodies at the same position) it is `0` here,
while the code divides zero by zero. This definition is the code wherever no
divisor of `collisionPairDivisors` is zero; statements about the case
`dist = 0` are made through `collisionPairDivisors`. -/
def collisionPair (sqrt : F → F) (cs : List (CircleObject F)) (i j : Nat) :
    List (CircleObject F) :=
  match cs[i]?, cs[j]? with
  | some ci, some cj =>
      let d := cj.position - ci.position
      let dist2 := Vec2.dot d d
      let r := ci.radius + cj.radius
      if dist2 > r * r then cs
      else
        let dist := sqrt dist2
        let n := d.divs dist
        let rv := cj.velocity - ci.velocity
        let vn := Vec2.dot rv n
        if vn > 0 then cs
        else
          let e : F := restitution
          let j_impulse := -(1 + e) * vn / (1 / ci.mass + 1 / cj.mass)
          let impulse := Vec2.smul j_impulse n
          let cs1 := cs.set i { ci with velocity := ci.velocity - impulse.divs ci.mass }
          cs1.set j { cj with velocity := cj.velocity + impulse.divs cj.mass }
  | _, _ => cs

/-- One iteration `i` of the outer loop of `collision`: `j` runs from `i + 1`
to the end of the vector. -/
def collisionOuter (sqrt : F → F) (cs : List (CircleObject F)) (i : Nat) :
    List (CircleObject F) :=
  (List.range' (i + 1) (cs.length - (i + 1))).foldl (fun acc j => collisionPair sqrt acc i j) cs

/-- The method `GravitySystem::collision`. -/
def collision (sqrt : F → F) (circles : List (CircleObject F)) : List (CircleObject F) :=
  (List.range circles.length).foldl (fun acc i => collisionOuter sqrt acc i) circles

/-- The method `GravitySystem::update`: the probes and the bodies after one
step. -/
def update (sys : GravitySystem F) (sqrt : F → F)
    (s : List (RectObject F) × List (CircleObject F)) :
    List (RectObject F) × List (CircleObject F) :=
  let circles1 := updateCircle sys sqrt s.2
  let circles2 := collision sqrt circles1
  let rects1 := updateVectorFieldComponent sys sqrt s.1 circles2
  (rects1, circles2)

/-- The main loop: `N` calls of `update`, one per frame. -/
def steps (sys : GravitySystem F) (sqrt : F → F) :
    Nat → List (RectObject F) × List (CircleObject F) →
      List (RectObject F) × List (CircleObject F)
  | 0, s => s
  | N + 1, s => steps sys sqrt N (update sys sqrt s)

/-- The method `GravitySystem::initCircles2`, which writes entries 0, 1 and 2
of the vector. -/
def initCircles2 (sqrt : F → F) (circles : List (CircleObject F)) : List (CircleObject F) :=
  let c0 : CircleObject F :=
    { position := ⟨-400, -400 * sqrt 3 / 3⟩
      velocity := ⟨10, 0⟩
      net_force := 0
      color := (1, 0, 0)
      mass := 100
      radius := 50 }
  let c1 : CircleObject F :=
    { position := ⟨400, -400 * sqrt 3 / 3⟩
      velocity := ⟨-5, 5 * sqrt 3⟩
      net_force := 0
      color := (0, 1, 0)
      mass := 100
      radius := 50 }
  let c2 : CircleObject F :=
    { position := ⟨0, 400 * sqrt 3 * 2 / 3⟩
      velocity := ⟨-5, -5 * sqrt 3⟩
      net_force := 0
      color := (0, 0, 1)
      mass := 100
      radius := 50 }
  ((circles.set 0 c0).set 1 c1).set 2 c2

/-- The body that iteration `i` of the loop of `initCircles` writes to
`circles[i]`, for the viewport width `width`: all six fields are assigned. -/
def initCirclesBody (width : F) (i : Nat) : CircleObject F :=
  { position := ⟨-width * (1 / 4) + ((i : F) * width * (1 / 2)), 0⟩
    velocity := ⟨if i % 2 = 0 then 5 else -5, if i % 2 = 0 then 3 else -3⟩
    net_force := 0
    mass := 100
    radius := 50
    color := (1, 1, 1) }

/-- The method `GravitySystem::initCircles`, for the viewport `width` and
`height` read from the renderer. -/
def initCircles (width _height : F) (circles : List (CircleObject F)) : List (CircleObject F) :=
  (List.range circles.length).foldl (fun acc i => acc.set i (initCirclesBody width i)) circles

/-- The constant `NUM_RECT_COLS`. -/
def NUM_RECT_COLS : Nat := 10

/-- The constant `NUM_RECT_ROWS`. -/
def NUM_RECT_ROWS : Nat := 10

/-- The method `GravitySystem::initVectorFieldComponent`, for the viewport
`width` and `height` read from the renderer: both fields of `rects[idx]` are
assigned in iteration `(row, col)`. -/
def initVectorFieldComponent (width height : F) (rects : List (RectObject F)) :
    List (RectObject F) :=
  let dx := width / (NUM_RECT_COLS : F)
  let dy := height / (NUM_RECT_ROWS : F)
  let startX := -width * (1 / 2) + dx * (1 / 2)
  let startY := -height * (1 / 2) + dy * (1 / 2)
  (List.range NUM_RECT_ROWS).foldl
    (fun acc row =>
      (List.range NUM_RECT_COLS).foldl
        (fun acc col =>
          let idx := row * NUM_RECT_COLS + col
          acc.set idx
            { position := ⟨startX + (col : F) * dx, startY + (row : F) * dy⟩
              net_force := 0 })
        acc)
    rects

/-- The probe that the claim about the grid describes for `(row, col)`:
position `(-W/2 + (col + 1/2) * W/10, -H/2 + (row + 1/2) * H/10)` and net
force `(0, 0)`. -/
def probeAt (width height : F) (row col : Nat) : RectObject F :=
  { position :=
      ⟨-width / 2 + ((col : F) + 1 / 2) * (width / 10),
        -height / 2 + ((row : F) + 1 / 2) * (height / 10)⟩
    net_force := 0 }

/-- A vertex of a mesh: `struct Vertex`. -/
structure Vertex (F : Type) where
  pos : Vec2 F

/-- The function `createCircleObject`: the vertices and the indices it leaves
in `circle_vertices` and `circle_indices`. The indices are `uint16_t`, so
every pushed value is taken modulo `2^16`; `cos`, `sin` and `two_pi` stand for
`glm::cos`, `glm::sin` and `glm::two_pi<float>()`. -/
def createCircleObject (cos sin : F → F) (two_pi : F) (n_sides : Nat) :
    List (Vertex F) × List Nat :=
  let circle_vertices : List (Vertex F) :=
    (List.range n_sides).foldl
      (fun acc (i : Nat) =>
        let angle := two_pi / (n_sides : F) * (i : F)
        acc ++ [⟨⟨cos angle, sin angle⟩⟩])
      []
  let origin_idx := n_sides % 65536
  let circle_vertices := circle_vertices ++ [⟨⟨0, 0⟩⟩]
  let circle_indices : List Nat :=
    (List.range n_sides).foldl
      (fun acc i => acc ++ [origin_idx] ++ [i % 65536] ++ [(i + 1) % n_sides % 65536])
      []
  (circle_vertices, circle_indices)

/-- The pairs of `collision` resolved in a given order, each by the body of
the inner loop of `collision`. -/
def resolveInOrder (sqrt : F → F) (pairs : List (Nat × Nat)) (cs : List (CircleObject F)) :
    List (CircleObject F) :=
  pairs.foldl (fun acc p => collisionPair sqrt acc p.1 p.2) cs

/-- The contact normal `n = d / dist` that `collision` computes for the pair
`(a, b)`. -/
def contactNormal (sqrt : F → F) (a b : CircleObject F) : Vec2 F :=
  (b.position - a.position).divs
    (sqrt (Vec2.dot (b.position - a.position) (b.position - a.position)))

/-- The normal relative velocity `vn = dot(rv, n)` that `collision` computes
for the pair `(a, b)`. -/
def normalVelocity (sqrt : F → F) (a b : CircleObject F) : F :=
  Vec2.dot (b.velocity - a.velocity) (contactNormal sqrt a b)

/-- The vector `impulse = j_impulse * n` that `collision` computes for the
pair `(a, b)`. -/
def pairImpulse (sqrt : F → F) (a b : CircleObject F) : Vec2 F :=
  Vec2.smul (-(1 + restitution) * normalVelocity sqrt a b / (1 / a.mass + 1 / b.mass))
    (contactNormal sqrt a b)

/-- The kinetic energy of the bodies: the sum of `(1/2) * mass * |velocity|^2`. -/
def kineticEnergy (cs : List (CircleObject F)) : F :=
  (cs.map fun c => 1 / 2 * c.mass * Vec2.dot c.velocity c.velocity).sum

/-! ### The components as the specification words them -/

/-- The step `Integrator.step()` of section 4.5 of the specification, on the
pair of probes and bodies. -/
def integratorStep (sys : GravitySystem F) (sqrt : F → F)
    (s : List (RectObject F) × List (CircleObject F)) :
    List (RectObject F) × List (CircleObject F) :=
  (s.1, updateCircle sys sqrt s.2)

/-- The step `CollisionResolver.resolve()` of section 4.5. -/
def collisionResolverResolve (sqrt : F → F)
    (s : List (RectObject F) × List (CircleObject F)) :
    List (RectObject F) × List (CircleObject F) :=
  (s.1, collision sqrt s.2)

/-- The step `FieldSampler.sample()` of section 4.5. -/
def fieldSamplerSample (sys : GravitySystem F) (sqrt : F → F)
    (s : List (RectObject F) × List (CircleObject F)) :
    List (RectObject F) × List (CircleObject F) :=
  (updateVectorFieldComponent sys sqrt s.1 s.2, s.2)

/-- The contract `ForceField` of section 4.1 of the specification: the force
on the particle of mass `m_self` at `a` from the mass `m_other` at `b`, with
the softening term `eps`. -/
def ForceField (sqrt : F → F) (G eps : F) (a b : Vec2 F) (m_self m_other : F) : Vec2 F :=
  let r := b - a
  let dist2 := Vec2.dot r r + eps
  let invDist := 1 / sqrt dist2
  let direction := r.muls invDist
  let magnitude := G * m_self * m_other * invDist ^ 2
  Vec2.smul magnitude direction

/-! ### The divisors of one step

Every division of `update`, in execution order within each pass.  A division
of a vector by a scalar is listed once. -/

/-- The divisor of `glm::inversesqrt` in iteration `(i, j)` of the force pass
of `updateCircle`; nothing is divided when `i = j`. -/
def forceInnerDivisors (sqrt : F → F) (cs : List (CircleObject F)) (i j : Nat) : List F :=
  if i = j then []
  else
    match cs[i]?, cs[j]? with
    | some ci, some cj => [sqrt (softDist sqrt (cj.position - ci.position))]
    | _, _ => []

/-- The divisors of `updateCircle`: those of the force pass, which does not
write positions, then `circle.mass` for every body in the integration loop. -/
def updateCircleDivisors (sys : GravitySystem F) (sqrt : F → F)
    (cs : List (CircleObject F)) : List F :=
  ((List.range cs.length).flatMap fun i =>
      (List.range cs.length).flatMap fun j => forceInnerDivisors sqrt cs i j) ++
    (accumulateForces sys sqrt cs).map fun circle => circle.mass

/-- The divisors of the pair `(i, j)` of `collision`: none when the pair does
not overlap, `dist` of `n = d / dist` when it does, and the two masses, the
sum `1 / mass[i] + 1 / mass[j]` and the two masses again when an impulse is
applied. -/
def collisionPairDivisors (sqrt : F → F) (cs : List (CircleObject F)) (i j : Nat) : List F :=
  match cs[i]?, cs[j]? with
  | some ci, some cj =>
      let d := cj.position - ci.position
      let dist2 := Vec2.dot d d
      let r := ci.radius + cj.radius
      if dist2 > r * r then []
      else
        let dist := sqrt dist2
        let n := d.divs dist
        let rv := cj.velocity - ci.velocity
        let vn := Vec2.dot rv n
        if vn > 0 then [dist]
        else [dist, ci.mass, cj.mass, 1 / ci.mass + 1 / cj.mass, ci.mass, cj.mass]
  | _, _ => []

/-- The divisors of iteration `i` of the outer loop of `collision`, on the
vector as the iterations before `(i, j)` left it. -/
def collisionOuterDivisors (sqrt : F → F) (cs : List (CircleObject F)) (i : Nat) : List F :=
  ((List.range' (i + 1) (cs.length - (i + 1))).foldl
    (fun (acc : List (CircleObject F) × List F) j =>
      (collisionPair sqrt acc.1 i j, acc.2 ++ collisionPairDivisors sqrt acc.1 i j))
    (cs, [])).2

/-- The divisors of `collision`. -/
def collisionDivisors (sqrt : F → F) (circles : List (CircleObject F)) : List F :=
  ((List.range circles.length).foldl
    (fun (acc : List (CircleObject F) × List F) i =>
      (collisionOuter sqrt acc.1 i, acc.2 ++ collisionOuterDivisors sqrt acc.1 i))
    (circles, [])).2

/-- The divisors of `updateVectorFieldComponent`: the one of
`glm::inversesqrt` for every probe and body. -/
def updateVectorFieldComponentDivisors (sqrt : F → F) (rects : List (RectObject F))
    (circles : List (CircleObject F)) : List F :=
  rects.flatMap fun rect =>
    circles.map fun circle => sqrt (softDist sqrt (circle.position - rect.position))

/-- The divisors of one call of `update`. -/
def updateDivisors (sys : GravitySystem F) (sqrt : F → F)
    (s : List (RectObject F) × List (CircleObject F)) : List F :=
  let circles1 := updateCircle sys sqrt s.2
  let circles2 := collision sqrt circles1
  updateCircleDivisors sys sqrt s.2 ++ collisionDivisors sqrt circles1 ++
    updateVectorFieldComponentDivisors sqrt s.1 circles2

/-- What iteration `(i, j)` of the force pass adds to the net force of body
`i`, whose fields are `ci`: nothing when `i = j`, else the pair force. -/
def contrib (sys : GravitySystem F) (sqrt : F → F) (cs : List (CircleObject F))
    (ci : CircleObject F) (i j : Nat) : Vec2 F :=
  if i = j then 0
  else
    match cs[j]? with
    | some cj => pairForce sys sqrt ci cj
    | none => 0

/-- The sum over all `j != i` of the pair forces on body `i`, at the positions
and masses of the vector `cs`. -/
def netForce (sys : GravitySystem F) (sqrt : F → F) (cs : List (CircleObject F))
    (i : Nat) : Vec2 F :=
  match cs[i]? with
  | some ci => ((List.range cs.length).map (contrib sys sqrt cs ci i)).sum
  | none => 0

/-- The force on body `i` from body `j` by index, `0` outside the vector. -/
def pairTerm (sys : GravitySystem F) (sqrt : F → F) (cs : List (CircleObject F))
    (i j : Nat) : Vec2 F :=
  match cs[i]? with
  | some ci => contrib sys sqrt cs ci i j
  | none => 0

/-- A body with its net force erased: the fields the force pass only reads. -/
def clearForce (c : CircleObject F) : CircleObject F := { c with net_force := 0 }

/-- The total momentum of the bodies: the sum of `mass * velocity`. -/
def totalMomentum (cs : List (CircleObject F)) : Vec2 F :=
  ⟨(cs.map fun c => c.mass * c.velocity.x).sum, (cs.map fun c => c.mass * c.velocity.y).sum⟩

end Code

/-! ## Sample inputs -/

/-- A body at rest at the origin, of mass 100 and radius 50. -/
def bodyA : CircleObject ℚ :=
  { position := ⟨0, 0⟩, velocity := ⟨0, 0⟩, net_force := 0, color := (1, 1, 1),
    mass := 100, radius := 50 }

/-- A body at `(1, 0)` moving away from the origin, of mass 100 and radius 50. -/
def bodyB : CircleObject ℚ :=
  { position := ⟨1, 0⟩, velocity := ⟨2, 3⟩, net_force := 0, color := (1, 1, 1),
    mass := 100, radius := 50 }

/-- A body at `(1000, 0)`, far from the origin, of mass 100 and radius 50. -/
def bodyC : CircleObject ℚ :=
  { position := ⟨1000, 0⟩, velocity := ⟨-5, 3⟩, net_force := 0, color := (1, 1, 1),
    mass := 100, radius := 50 }

/-- A body at `(1, 0)` moving towards the origin, of mass 100 and radius 50. -/
def bodyD : CircleObject ℚ :=
  { position := ⟨1, 0⟩, velocity := ⟨-2, 3⟩, net_force := 0, color := (1, 1, 1),
    mass := 100, radius := 50 }

/-- A body of mass 100 and radius 50, as `initCircles` writes them, with the
given position and velocity. -/
def sampleBody {F : Type} [LinearOrderedField F] (px py vx vy : F) : CircleObject F :=
  { position := ⟨px, py⟩, velocity := ⟨vx, vy⟩, net_force := 0, color := (1, 1, 1),
    mass := 100, radius := 50 }

/-! ## Basic facts about vectors and lists -/

section Lemmas

variable {F : Type} [LinearOrderedField F]

@[simp] theorem Vec2.zero_x : (0 : Vec2 F).x = 0 := rfl
@[simp] theorem Vec2.zero_y : (0 : Vec2 F).y = 0 := rfl
@[simp] theorem Vec2.add_x (a b : Vec2 F) : (a + b).x = a.x + b.x := rfl
@[simp] theorem Vec2.add_y (a b : Vec2 F) : (a + b).y = a.y + b.y := rfl
@[simp] theorem Vec2.sub_x (a b : Vec2 F) : (a - b).x = a.x - b.x := rfl
@[simp] theorem Vec2.sub_y (a b : Vec2 F) : (a - b).y = a.y - b.y := rfl
@[simp] theorem Vec2.neg_x (a : Vec2 F) : (-a).x = -a.x := rfl
@[simp] theorem Vec2.neg_y (a : Vec2 F) : (-a).y = -a.y := rfl
@[simp] theorem Vec2.smul_x (k : F) (a : Vec2 F) : (Vec2.smul k a).x = k * a.x := rfl
@[simp] theorem Vec2.smul_y (k : F) (a : Vec2 F) : (Vec2.smul k a).y = k * a.y := rfl
@[simp] theorem Vec2.muls_x (a : Vec2 F) (k : F) : (a.muls k).x = a.x * k := rfl
@[simp] theorem Vec2.muls_y (a : Vec2 F) (k : F) : (a.muls k).y = a.y * k := rfl
@[simp] theorem Vec2.divs_x (a : Vec2 F) (k : F) : (a.divs k).x = a.x / k := rfl
@[simp] theorem Vec2.divs_y (a : Vec2 F) (k : F) : (a.divs k).y = a.y / k := rfl

/-- The sum of `f` over a list after one entry has been overwritten. -/
theorem sum_map_set {α : Type} (f : α → F) :
    ∀ (l : List α) (i : Nat) (a b : α), l[i]? = some b →
      ((l.set i a).map f).sum = (l.map f).sum - f b + f a
  | [], i, a, b, h => by simp at h
  | c :: l, 0, a, b, h => by
      simp at h
      subst h
      simp only [List.set_cons_zero, List.map_cons, List.sum_cons]
      ring
  | c :: l, i + 1, a, b, h => by
      simp at h
      rw [List.set_cons_succ, List.map_cons, List.sum_cons, sum_map_set f l i a b h,
        List.map_cons, List.sum_cons]
      ring

/-- Overwriting an entry by one with the same image under `f` does not change
the list of images. -/
theorem map_set_same {α β : Type} (f : α → β) :
    ∀ (l : List α) (i : Nat) (a b : α), l[i]? = some b → f a = f b →
      (l.set i a).map f = l.map f
  | [], i, a, b, h, _ => by simp at h
  | c :: l, 0, a, b, h, hf => by
      simp at h
      subst h
      simp [hf]
  | c :: l, i + 1, a, b, h, hf => by
      simp at h
      rw [List.set_cons_succ, List.map_cons, map_set_same f l i a b h hf, List.map_cons]

/-- A property that every loop iteration preserves holds after the loop. -/
theorem foldl_invariant {σ ι : Type} (P : σ → Prop) (f : σ → ι → σ) :
    ∀ (l : List ι) (s : σ), P s → (∀ t x, x ∈ l → P t → P (f t x)) → P (l.foldl f s)
  | [], s, hs, _ => hs
  | x :: l, s, hs, hstep => by
      rw [List.foldl_cons]
      exact foldl_invariant P f l (f s x)
        (hstep s x (List.mem_cons_self x l) hs)
        (fun t y hy ht => hstep t y (List.mem_cons_of_mem x hy) ht)

/-! ## The force pass of `updateCircle` -/

/-- The squared distance does not depend on the direction of the separation
vector. -/
theorem softDist_swap (sqrt : F → F) (a b : Vec2 F) :
    softDist sqrt (a - b) = softDist sqrt (b - a) := by
  have h : Vec2.dot (a - b) (a - b) = Vec2.dot (b - a) (b - a) := by
    simp only [Vec2.dot, Vec2.sub_x, Vec2.sub_y]
    ring
  simp only [softDist, Vec2.length, h]


/-- The pair force reads positions and masses only. -/
theorem pairForce_clearForce (sys : GravitySystem F) (sqrt : F → F) (ci cj : CircleObject F) :
    pairForce sys sqrt (clearForce ci) (clearForce cj) = pairForce sys sqrt ci cj := rfl

/-- The contribution `contrib` reads positions and masses only. -/
theorem contrib_congr (sys : GravitySystem F) (sqrt : F → F) (cs cs0 : List (CircleObject F))
    (ci ci0 : CircleObject F) (i j : Nat)
    (hcs : cs.map clearForce = cs0.map clearForce) (hci : clearForce ci = clearForce ci0) :
    contrib sys sqrt cs ci i j = contrib sys sqrt cs0 ci0 i j := by
  unfold contrib
  by_cases hij : i = j
  · rw [if_pos hij, if_pos hij]
  · rw [if_neg hij, if_neg hij]
    have hj : (cs[j]?).map clearForce = (cs0[j]?).map clearForce := by
      rw [← List.getElem?_map, ← List.getElem?_map, hcs]
    cases h1 : cs[j]? with
    | none =>
      cases h2 : cs0[j]? with
      | none => rfl
      | some c0 => rw [h1, h2] at hj; simp at hj
    | some c =>
      cases h2 : cs0[j]? with
      | none => rw [h1, h2] at hj; simp at hj
      | some c0 =>
        rw [h1, h2] at hj
        simp only [Option.map_some', Option.some.injEq] at hj
        simp only
        rw [← pairForce_clearForce sys sqrt ci c, ← pairForce_clearForce sys sqrt ci0 c0, hci, hj]

/-- One iteration of the inner loop, on a vector whose entry `i` carries the
net force `a`. -/
theorem forceInner_set (sys : GravitySystem F) (sqrt : F → F) (cs : List (CircleObject F))
    (ci : CircleObject F) (i j : Nat) (hi : cs[i]? = some ci) (a : Vec2 F) :
    forceInner sys sqrt (cs.set i { ci with net_force := a }) i j =
      cs.set i { ci with net_force := a + contrib sys sqrt cs ci i j } := by
  have hlt : i < cs.length := (List.getElem?_eq_some.mp hi).1
  unfold forceInner contrib
  by_cases hij : i = j
  · rw [if_pos hij, if_pos hij, add_zero]
  · rw [if_neg hij, if_neg hij, List.getElem?_set_self hlt, List.getElem?_set_ne hij]
    cases hj : cs[j]? with
    | none => simp only [add_zero]
    | some cj =>
      simp only
      rw [List.set_set]
      rfl

/-- The inner loop over the indices `js`. -/
theorem forceInner_fold (sys : GravitySystem F) (sqrt : F → F) (cs : List (CircleObject F))
    (ci : CircleObject F) (i : Nat) (hi : cs[i]? = some ci) :
    ∀ (js : List Nat) (a : Vec2 F),
      js.foldl (fun acc j => forceInner sys sqrt acc i j) (cs.set i { ci with net_force := a }) =
        cs.set i { ci with net_force := a + (js.map (contrib sys sqrt cs ci i)).sum }
  | [], a => by simp
  | j :: js, a => by
      rw [List.foldl_cons, forceInner_set sys sqrt cs ci i j hi a,
        forceInner_fold sys sqrt cs ci i hi js, List.map_cons, List.sum_cons, add_assoc]

/-- One iteration of the outer loop writes the sum of the contributions of
all `j` to entry `i`. -/
theorem forceOuter_eq (sys : GravitySystem F) (sqrt : F → F) (cs : List (CircleObject F))
    (ci : CircleObject F) (i : Nat) (hi : cs[i]? = some ci) :
    forceOuter sys sqrt cs i =
      cs.set i { ci with
        net_force := ((List.range cs.length).map (contrib sys sqrt cs ci i)).sum } := by
  unfold forceOuter
  simp only [hi, List.length_set]
  rw [forceInner_fold sys sqrt cs ci i hi, zero_add]

/-- After the first `k` iterations of the outer loop, only net forces have
changed, and bodies `0 .. k-1` carry the net force of the initial vector. -/
theorem accumulate_first (sys : GravitySystem F) (sqrt : F → F) (cs : List (CircleObject F)) :
    ∀ k, k ≤ cs.length →
      ((List.range k).foldl (fun acc i => forceOuter sys sqrt acc i) cs).map clearForce =
          cs.map clearForce ∧
        ∀ m c, m < k →
          ((List.range k).foldl (fun acc i => forceOuter sys sqrt acc i) cs)[m]? = some c →
            c.net_force = netForce sys sqrt cs m
  | 0, _ => by
      refine ⟨rfl, ?_⟩
      intro m c hm
      omega
  | k + 1, hk => by
      obtain ⟨ha, hb⟩ := accumulate_first sys sqrt cs k (by omega)
      rw [List.range_succ, List.foldl_append, List.foldl_cons, List.foldl_nil]
      generalize (List.range k).foldl (fun acc i => forceOuter sys sqrt acc i) cs = T at ha hb
      have hlen : T.length = cs.length := by
        have := congrArg List.length ha
        simpa using this
      have hkT : k < T.length := by omega
      have hkc : k < cs.length := by omega
      have hTk : T[k]? = some T[k] := List.getElem?_eq_getElem hkT
      have hck : cs[k]? = some cs[k] := List.getElem?_eq_getElem hkc
      have hclr : clearForce T[k] = clearForce cs[k] := by
        have h1 : (T.map clearForce)[k]? = (cs.map clearForce)[k]? := by rw [ha]
        rw [List.getElem?_map, List.getElem?_map, hTk, hck] at h1
        simpa using h1
      rw [forceOuter_eq sys sqrt T T[k] k hTk]
      refine ⟨?_, ?_⟩
      · refine (map_set_same clearForce T k _ T[k] hTk ?_).trans ha
        rfl
      · intro m c hm hc
        by_cases hmk : m = k
        · subst hmk
          rw [List.getElem?_set_self hkT] at hc
          simp only [Option.some.injEq] at hc
          subst hc
          simp only [netForce, hck, hlen]
          congr 1
          apply List.map_congr_left
          intro j _
          exact contrib_congr sys sqrt T cs T[m] cs[m] m j ha hclr
        · rw [List.getElem?_set_ne (Ne.symm hmk)] at hc
          exact hb m c (by omega) hc

/-- The force pass changes net forces only. -/
theorem accumulateForces_clearForce (sys : GravitySystem F) (sqrt : F → F)
    (cs : List (CircleObject F)) :
    (accumulateForces sys sqrt cs).map clearForce = cs.map clearForce :=
  (accumulate_first sys sqrt cs cs.length (le_refl _)).1

/-- After the force pass, body `m` carries the net force computed from the
positions and masses on entry. -/
theorem accumulateForces_net_force (sys : GravitySystem F) (sqrt : F → F)
    (cs : List (CircleObject F)) :
    (accumulateForces sys sqrt cs).map (fun c => c.net_force) =
      (List.range cs.length).map (netForce sys sqrt cs) := by
  have hlen : (accumulateForces sys sqrt cs).length = cs.length := by
    have := congrArg List.length (accumulateForces_clearForce sys sqrt cs)
    simpa using this
  apply List.ext_getElem?
  intro m
  rw [List.getElem?_map, List.getElem?_map]
  by_cases hm : m < cs.length
  · have h1 : (accumulateForces sys sqrt cs)[m]? = some (accumulateForces sys sqrt cs)[m] :=
      List.getElem?_eq_getElem (by omega)
    have h2 := (accumulate_first sys sqrt cs cs.length (le_refl _)).2 m _ hm h1
    rw [h1, List.getElem?_range hm]
    simp only [Option.map_some', Option.some.injEq]
    exact h2
  · rw [List.getElem?_eq_none (by omega), List.getElem?_eq_none (by simp; omega)]
    rfl

/-- A sum over `List.range` as a sum over `Finset.range`. -/
theorem list_range_sum (f : Nat → Vec2 F) :
    ∀ n, ((List.range n).map f).sum = Finset.sum (Finset.range n) f
  | 0 => by simp
  | n + 1 => by
      rw [List.range_succ, List.map_append, List.sum_append, list_range_sum f n,
        Finset.sum_range_succ]
      simp

/-- The components of a sum of vectors. -/
theorem sum_x : ∀ l : List (Vec2 F), l.sum.x = (l.map Vec2.x).sum
  | [] => rfl
  | v :: l => by
      rw [List.sum_cons, Vec2.add_x, sum_x l, List.map_cons, List.sum_cons]

/-- The components of a sum of vectors. -/
theorem sum_y : ∀ l : List (Vec2 F), l.sum.y = (l.map Vec2.y).sum
  | [] => rfl
  | v :: l => by
      rw [List.sum_cons, Vec2.add_y, sum_y l, List.map_cons, List.sum_cons]

/-- Action equals minus reaction, by index. -/
theorem pairTerm_antisymm (sys : GravitySystem F) (sqrt : F → F) (cs : List (CircleObject F))
    (i j : Nat) : pairTerm sys sqrt cs i j = -pairTerm sys sqrt cs j i := by
  unfold pairTerm contrib
  by_cases hij : i = j
  · subst hij
    cases cs[i]? <;> simp
  · have hji : ¬ j = i := fun h => hij h.symm
    cases hi : cs[i]? with
    | none =>
      cases hj : cs[j]? <;> simp [hij, hji]
    | some ci =>
      cases hj : cs[j]? with
      | none => simp [hij, hji]
      | some cj =>
        simp only [if_neg hij, if_neg hji]
        ext
        · simp only [pairForce, softDist_swap sqrt ci.position cj.position, Vec2.smul_x,
            Vec2.muls_x, Vec2.sub_x, Vec2.neg_x]
          ring
        · simp only [pairForce, softDist_swap sqrt ci.position cj.position, Vec2.smul_y,
            Vec2.muls_y, Vec2.sub_y, Vec2.neg_y]
          ring

/-- The net force on body `i` as a sum over indices. -/
theorem netForce_eq_sum (sys : GravitySystem F) (sqrt : F → F) (cs : List (CircleObject F))
    (i : Nat) :
    netForce sys sqrt cs i = Finset.sum (Finset.range cs.length) (pairTerm sys sqrt cs i) := by
  unfold netForce
  cases hi : cs[i]? with
  | none =>
    simp only
    symm
    apply Finset.sum_eq_zero
    intro j _
    simp [pairTerm, hi]
  | some ci =>
    simp only
    rw [list_range_sum]
    apply Finset.sum_congr rfl
    intro j _
    simp [pairTerm, hi]

/-- The net forces of all bodies add up to zero. -/
theorem netForce_total (sys : GravitySystem F) (sqrt : F → F) (cs : List (CircleObject F)) :
    Finset.sum (Finset.range cs.length) (netForce sys sqrt cs) = 0 := by
  have h : Finset.sum (Finset.range cs.length) (netForce sys sqrt cs) =
      -Finset.sum (Finset.range cs.length) (netForce sys sqrt cs) := by
    calc Finset.sum (Finset.range cs.length) (netForce sys sqrt cs)
        = Finset.sum (Finset.range cs.length) (fun i =>
            Finset.sum (Finset.range cs.length) (fun j => pairTerm sys sqrt cs i j)) :=
          Finset.sum_congr rfl (fun i _ => netForce_eq_sum sys sqrt cs i)
      _ = Finset.sum (Finset.range cs.length) (fun j =>
            Finset.sum (Finset.range cs.length) (fun i => pairTerm sys sqrt cs i j)) :=
          Finset.sum_comm
      _ = Finset.sum (Finset.range cs.length) (fun j =>
            -Finset.sum (Finset.range cs.length) (fun i => pairTerm sys sqrt cs j i)) := by
          apply Finset.sum_congr rfl
          intro j _
          rw [← Finset.sum_neg_distrib]
          apply Finset.sum_congr rfl
          intro i _
          exact pairTerm_antisymm sys sqrt cs i j
      _ = -Finset.sum (Finset.range cs.length) (fun j =>
            Finset.sum (Finset.range cs.length) (fun i => pairTerm sys sqrt cs j i)) :=
          Finset.sum_neg_distrib
      _ = -Finset.sum (Finset.range cs.length) (netForce sys sqrt cs) := by
          congr 1
          exact Finset.sum_congr rfl (fun i _ => (netForce_eq_sum sys sqrt cs i).symm)
  generalize Finset.sum (Finset.range cs.length) (netForce sys sqrt cs) = S at h
  have hx := congrArg Vec2.x h
  have hy := congrArg Vec2.y h
  simp only [Vec2.neg_x, Vec2.neg_y] at hx hy
  ext
  · simp only [Vec2.zero_x]
    linarith
  · simp only [Vec2.zero_y]
    linarith

/-- After the force pass the net forces of all bodies add up to zero. -/
theorem accumulateForces_sum (sys : GravitySystem F) (sqrt : F → F)
    (cs : List (CircleObject F)) :
    ((accumulateForces sys sqrt cs).map (fun c => c.net_force)).sum = 0 := by
  rw [accumulateForces_net_force, list_range_sum, netForce_total]

omit [LinearOrderedField F] in
/-- A property of the masses passes to a vector with the same masses. -/
theorem mass_transfer (P : F → Prop) (s cs : List (CircleObject F))
    (hs : s.map (fun c => c.mass) = cs.map (fun c => c.mass)) (hP : ∀ c ∈ cs, P c.mass) :
    ∀ c ∈ s, P c.mass := by
  intro c hc
  have h1 : c.mass ∈ s.map (fun c => c.mass) := List.mem_map_of_mem _ hc
  rw [hs, List.mem_map] at h1
  obtain ⟨c0, hc0, h0⟩ := h1
  rw [← h0]
  exact hP c0 hc0

/-- The force pass does not write masses. -/
theorem accumulateForces_mass (sys : GravitySystem F) (sqrt : F → F)
    (cs : List (CircleObject F)) :
    (accumulateForces sys sqrt cs).map (fun c => c.mass) = cs.map (fun c => c.mass) := by
  have h := congrArg (List.map (fun c : CircleObject F => c.mass))
    (accumulateForces_clearForce sys sqrt cs)
  simpa [List.map_map, Function.comp_def, clearForce] using h

/-- The method `updateCircle` does not write masses. -/
theorem updateCircle_mass (sys : GravitySystem F) (sqrt : F → F)
    (cs : List (CircleObject F)) :
    (updateCircle sys sqrt cs).map (fun c => c.mass) = cs.map (fun c => c.mass) := by
  unfold updateCircle
  rw [List.map_map, ← accumulateForces_mass sys sqrt cs]
  rfl

/-- The method `updateCircle` keeps the total momentum of bodies with non-zero
masses. -/
theorem updateCircle_momentum (sys : GravitySystem F) (sqrt : F → F)
    (cs : List (CircleObject F)) (hm : ∀ c ∈ cs, c.mass ≠ 0) :
    totalMomentum (updateCircle sys sqrt cs) = totalMomentum cs := by
  have hmS : ∀ c ∈ accumulateForces sys sqrt cs, c.mass ≠ 0 :=
    mass_transfer (fun m => m ≠ 0) _ cs (accumulateForces_mass sys sqrt cs) hm
  have hclr := accumulateForces_clearForce sys sqrt cs
  have hsum := accumulateForces_sum sys sqrt cs
  have hsx := congrArg Vec2.x hsum
  have hsy := congrArg Vec2.y hsum
  rw [sum_x, List.map_map] at hsx
  rw [sum_y, List.map_map] at hsy
  have hvx : (accumulateForces sys sqrt cs).map (fun c => c.mass * c.velocity.x) =
      cs.map (fun c => c.mass * c.velocity.x) := by
    have h := congrArg (List.map (fun c : CircleObject F => c.mass * c.velocity.x)) hclr
    simpa [List.map_map, Function.comp_def, clearForce] using h
  have hvy : (accumulateForces sys sqrt cs).map (fun c => c.mass * c.velocity.y) =
      cs.map (fun c => c.mass * c.velocity.y) := by
    have h := congrArg (List.map (fun c : CircleObject F => c.mass * c.velocity.y)) hclr
    simpa [List.map_map, Function.comp_def, clearForce] using h
  unfold totalMomentum updateCircle
  generalize accumulateForces sys sqrt cs = S at hmS hsx hsy hvx hvy
  rw [List.map_map, List.map_map]
  have hx : S.map ((fun c : CircleObject F => c.mass * c.velocity.x) ∘ integrate sys) =
      S.map (fun c => c.mass * c.velocity.x + sys.dt * (Vec2.x ∘ fun c => c.net_force) c) := by
    apply List.map_congr_left
    intro c hc
    have := hmS c hc
    simp only [Function.comp, integrate, Vec2.add_x, Vec2.muls_x, Vec2.divs_x]
    field_simp
    ring
  have hy : S.map ((fun c : CircleObject F => c.mass * c.velocity.y) ∘ integrate sys) =
      S.map (fun c => c.mass * c.velocity.y + sys.dt * (Vec2.y ∘ fun c => c.net_force) c) := by
    apply List.map_congr_left
    intro c hc
    have := hmS c hc
    simp only [Function.comp, integrate, Vec2.add_y, Vec2.muls_y, Vec2.divs_y]
    field_simp
    ring
  rw [hx, hy, List.sum_map_add, List.sum_map_add, List.sum_map_mul_left,
    List.sum_map_mul_left, hsx, hsy, hvx, hvy]
  simp

/-! ## The collision pass -/

/-- The change of `mass * velocity` of the two bodies of a resolved pair
cancels, whatever the impulse `p` is. -/
theorem impulse_cancels (S mi mj vi vj p : F) (hmi : mi ≠ 0) (hmj : mj ≠ 0) :
    S - mi * vi + mi * (vi - p / mi) - mj * vj + mj * (vj + p / mj) = S := by
  field_simp
  ring

/-- The masses are not written by the resolution of a pair. -/
theorem collisionPair_mass (sqrt : F → F) (cs : List (CircleObject F)) (i j : Nat) :
    (collisionPair sqrt cs i j).map (fun c => c.mass) = cs.map (fun c => c.mass) := by
  unfold collisionPair
  cases hi : cs[i]? with
  | none => rfl
  | some ci =>
    cases hj : cs[j]? with
    | none => rfl
    | some cj =>
      simp only
      split_ifs with h1 h2
      · rfl
      · rfl
      · by_cases hij : i = j
        · subst hij
          rw [List.set_set]
          exact map_set_same _ cs i _ cj hj rfl
        · refine (map_set_same (fun c : CircleObject F => c.mass) _ j _ cj ?_ ?_).trans ?_
          · rw [List.getElem?_set_ne hij]
            exact hj
          · rfl
          · exact map_set_same _ cs i _ ci hi rfl

/-- A two-element vector has the single pair `(0, 1)`. -/
theorem collision_two (sqrt : F → F) (a b : CircleObject F) :
    collision sqrt [a, b] = collisionPair sqrt [a, b] 0 1 := by
  have hlen : ∀ i j, (collisionPair sqrt [a, b] i j).length = 2 := by
    intro i j
    have h := congrArg List.length (collisionPair_mass sqrt [a, b] i j)
    simpa using h
  simp [collision, collisionOuter, List.range_succ, List.range'_succ, hlen]

/-- The resolution of a pair of two different bodies with non-zero masses
keeps the total momentum. -/
theorem collisionPair_momentum (sqrt : F → F) (cs : List (CircleObject F)) (i j : Nat)
    (hij : i ≠ j) (hm : ∀ c ∈ cs, c.mass ≠ 0) :
    totalMomentum (collisionPair sqrt cs i j) = totalMomentum cs := by
  unfold collisionPair
  cases hi : cs[i]? with
  | none => rfl
  | some ci =>
    cases hj : cs[j]? with
    | none => rfl
    | some cj =>
      have hmi : ci.mass ≠ 0 := hm ci (List.getElem?_mem hi)
      have hmj : cj.mass ≠ 0 := hm cj (List.getElem?_mem hj)
      simp only
      split_ifs with h1 h2
      · rfl
      · rfl
      · unfold totalMomentum
        have hj1 : ∀ c : CircleObject F, (cs.set i c)[j]? = some cj := by
          intro c
          rw [List.getElem?_set_ne hij]
          exact hj
        rw [sum_map_set _ _ j _ cj (hj1 _), sum_map_set _ cs i _ ci hi,
          sum_map_set _ _ j _ cj (hj1 _), sum_map_set _ cs i _ ci hi]
        ext
        · simp only [Vec2.add_x, Vec2.sub_x, Vec2.divs_x]
          exact impulse_cancels _ _ _ _ _ _ hmi hmj
        · simp only [Vec2.add_y, Vec2.sub_y, Vec2.divs_y]
          exact impulse_cancels _ _ _ _ _ _ hmi hmj

/-- The masses are not written by `collision`. -/
theorem collision_mass (sqrt : F → F) (cs : List (CircleObject F)) :
    (collision sqrt cs).map (fun c => c.mass) = cs.map (fun c => c.mass) := by
  unfold collision
  refine foldl_invariant (fun s => s.map (fun c => c.mass) = cs.map (fun c => c.mass))
    _ _ cs rfl ?_
  intro t i _ ht
  unfold collisionOuter
  refine foldl_invariant (fun s => s.map (fun c => c.mass) = cs.map (fun c => c.mass))
    _ _ t ht ?_
  intro u j _ hu
  rw [collisionPair_mass]
  exact hu

/-- The pass `collision` keeps the total momentum of bodies with non-zero
masses. -/
theorem collision_momentum (sqrt : F → F) (cs : List (CircleObject F))
    (hm : ∀ c ∈ cs, c.mass ≠ 0) :
    totalMomentum (collision sqrt cs) = totalMomentum cs := by
  have key : ∀ s : List (CircleObject F),
      s.map (fun c => c.mass) = cs.map (fun c => c.mass) → ∀ c ∈ s, c.mass ≠ 0 := by
    intro s hs c hc
    have h1 : c.mass ∈ s.map (fun c => c.mass) := List.mem_map_of_mem _ hc
    rw [hs, List.mem_map] at h1
    obtain ⟨c0, hc0, h0⟩ := h1
    rw [← h0]
    exact hm c0 hc0
  have main : (collision sqrt cs).map (fun c => c.mass) = cs.map (fun c => c.mass) ∧
      totalMomentum (collision sqrt cs) = totalMomentum cs := by
    unfold collision
    refine foldl_invariant
      (fun s => s.map (fun c => c.mass) = cs.map (fun c => c.mass) ∧
        totalMomentum s = totalMomentum cs) _ _ cs ⟨rfl, rfl⟩ ?_
    intro t i _ ht
    unfold collisionOuter
    refine foldl_invariant
      (fun s => s.map (fun c => c.mass) = cs.map (fun c => c.mass) ∧
        totalMomentum s = totalMomentum cs) _ _ t ht ?_
    intro u j hj hu
    have hij : i ≠ j := by
      have := (List.mem_range'_1.mp hj).1
      omega
    refine ⟨?_, ?_⟩
    · rw [collisionPair_mass]
      exact hu.1
    · rw [collisionPair_momentum sqrt u i j hij (key u hu.1)]
      exact hu.2
  exact main.2

/-- The force pass on a two-element vector. -/
theorem accumulateForces_two (sys : GravitySystem F) (sqrt : F → F) (a b : CircleObject F) :
    accumulateForces sys sqrt [a, b] =
      [{ a with net_force := pairForce sys sqrt a b },
        { b with net_force := pairForce sys sqrt b a }] := by
  have h0 : forceOuter sys sqrt [a, b] 0 = [{ a with net_force := pairForce sys sqrt a b }, b] := by
    rw [forceOuter_eq sys sqrt [a, b] a 0 rfl]
    simp [List.range_succ, contrib]
  have h1 : forceOuter sys sqrt [{ a with net_force := pairForce sys sqrt a b }, b] 1 =
      [{ a with net_force := pairForce sys sqrt a b },
        { b with net_force := pairForce sys sqrt b a }] := by
    rw [forceOuter_eq sys sqrt _ b 1 rfl]
    simp [List.range_succ, contrib]
    rfl
  simp [accumulateForces, List.range_succ, h0, h1]

/-! ## One step and many steps -/

/-- The method `update` does not write masses. -/
theorem update_mass (sys : GravitySystem F) (sqrt : F → F)
    (s : List (RectObject F) × List (CircleObject F)) :
    (update sys sqrt s).2.map (fun c => c.mass) = s.2.map (fun c => c.mass) := by
  unfold update
  simp only
  rw [collision_mass, updateCircle_mass]

/-- The method `update` keeps the total momentum of bodies with non-zero
masses. -/
theorem update_momentum (sys : GravitySystem F) (sqrt : F → F)
    (s : List (RectObject F) × List (CircleObject F)) (hm : ∀ c ∈ s.2, c.mass ≠ 0) :
    totalMomentum (update sys sqrt s).2 = totalMomentum s.2 := by
  unfold update
  simp only
  rw [collision_momentum sqrt _
    (mass_transfer (fun m => m ≠ 0) _ s.2 (updateCircle_mass sys sqrt s.2) hm)]
  exact updateCircle_momentum sys sqrt s.2 hm

/-- Any number of steps keeps the total momentum of bodies with positive
masses. -/
theorem steps_momentum (sys : GravitySystem F) (sqrt : F → F) :
    ∀ (N : Nat) (s : List (RectObject F) × List (CircleObject F)),
      (∀ c ∈ s.2, 0 < c.mass) → totalMomentum (steps sys sqrt N s).2 = totalMomentum s.2
  | 0, _, _ => rfl
  | N + 1, s, hm => by
      have hne : ∀ c ∈ s.2, c.mass ≠ 0 := fun c hc => ne_of_gt (hm c hc)
      have hm1 : ∀ c ∈ (update sys sqrt s).2, 0 < c.mass :=
        mass_transfer (fun m => 0 < m) _ s.2 (update_mass sys sqrt s) hm
      show totalMomentum (steps sys sqrt N (update sys sqrt s)).2 = totalMomentum s.2
      rw [steps_momentum sys sqrt N (update sys sqrt s) hm1]
      exact update_momentum sys sqrt s hne

/-- The bodies written by `initCircles2` have total momentum zero. -/
theorem initCircles2_momentum (sqrt : F → F) (a b c : CircleObject F) :
    totalMomentum (initCircles2 sqrt [a, b, c]) = 0 := by
  ext
  · simp [totalMomentum, initCircles2]
    ring
  · simp [totalMomentum, initCircles2]

/-- The bodies written by `initCircles2` have mass 100. -/
theorem initCircles2_mass (sqrt : F → F) (a b c : CircleObject F) :
    ∀ x ∈ initCircles2 sqrt [a, b, c], 0 < x.mass := by
  intro x hx
  simp only [initCircles2, List.set_cons_zero, List.set_cons_succ, List.mem_cons,
    List.mem_singleton, List.not_mem_nil, or_false] at hx
  rcases hx with rfl | rfl | rfl <;> norm_num

/-- The algebra of the impulse: with a unit normal `(nx, ny)` and an impulse
`K` that satisfies `K * (1/ma + 1/mb) = -(1 + e) * vn`, the normal relative
velocity after the impulse is `-e * vn`. -/
theorem impulse_normal_velocity (ma mb e nx ny vax vay vbx vby K : F)
    (hn : nx * nx + ny * ny = 1)
    (hK : K * (1 / ma + 1 / mb) = -(1 + e) * ((vbx - vax) * nx + (vby - vay) * ny)) :
    (vbx + K * nx / mb - (vax - K * nx / ma)) * nx +
        (vby + K * ny / mb - (vay - K * ny / ma)) * ny =
      -e * ((vbx - vax) * nx + (vby - vay) * ny) := by
  linear_combination (nx * nx + ny * ny) * hK -
    (1 + e) * ((vbx - vax) * nx + (vby - vay) * ny) * hn

/-- Over the reals the contact normal of two distinct positions is a unit
vector. -/
theorem normal_unit (d : Vec2 ℝ) (hd : 0 < Vec2.dot d d) :
    d.x / Real.sqrt (Vec2.dot d d) * (d.x / Real.sqrt (Vec2.dot d d)) +
        d.y / Real.sqrt (Vec2.dot d d) * (d.y / Real.sqrt (Vec2.dot d d)) = 1 := by
  have hs : 0 < Real.sqrt (Vec2.dot d d) := Real.sqrt_pos.mpr hd
  have hne : Real.sqrt (Vec2.dot d d) ≠ 0 := ne_of_gt hs
  field_simp
  rfl

/-! ## Softening, over the reals -/

/-- The softened squared distance is at least the softening constant, for
every square-root function. -/
theorem softening_le_softDist (sqrt : F → F) (r : Vec2 F) : softening ≤ softDist sqrt r := by
  unfold softDist
  simp only
  have := mul_self_nonneg (Vec2.length sqrt r)
  linarith

/-- The separation vector of two equal positions is zero. -/
theorem sub_self_eq_zero (p : Vec2 F) : p - p = 0 := by
  ext <;> simp

/-- The real softened squared distance at separation zero. -/
theorem softDist_zero : softDist Real.sqrt (0 : Vec2 ℝ) = 1 / 1000000 := by
  simp [softDist, Vec2.length, Vec2.dot, softening]

/-- The real square root of the softening constant. -/
theorem sqrt_softening : Real.sqrt (1 / 1000000) = 1 / 1000 := by
  have h : (1 / 1000000 : ℝ) = (1 / 1000) ^ 2 := by norm_num
  rw [h, Real.sqrt_sq (by norm_num)]

/-! ## What each pass writes -/

/-- The resolution of a pair writes velocities only. -/
theorem collisionPair_frame {β : Type} (f : CircleObject F → β)
    (hf : ∀ (c : CircleObject F) (v : Vec2 F), f { c with velocity := v } = f c)
    (sqrt : F → F) (cs : List (CircleObject F)) (i j : Nat) :
    (collisionPair sqrt cs i j).map f = cs.map f := by
  unfold collisionPair
  cases hi : cs[i]? with
  | none => rfl
  | some ci =>
    cases hj : cs[j]? with
    | none => rfl
    | some cj =>
      simp only
      split_ifs with h1 h2
      · rfl
      · rfl
      · by_cases hij : i = j
        · subst hij
          rw [List.set_set]
          exact map_set_same f cs i _ cj hj (hf _ _)
        · refine (map_set_same f _ j _ cj ?_ (hf _ _)).trans ?_
          · rw [List.getElem?_set_ne hij]
            exact hj
          · exact map_set_same f cs i _ ci hi (hf _ _)

/-- The pass `collision` writes velocities only. -/
theorem collision_frame {β : Type} (f : CircleObject F → β)
    (hf : ∀ (c : CircleObject F) (v : Vec2 F), f { c with velocity := v } = f c)
    (sqrt : F → F) (cs : List (CircleObject F)) :
    (collision sqrt cs).map f = cs.map f := by
  unfold collision
  refine foldl_invariant (fun s => s.map f = cs.map f) _ _ cs rfl ?_
  intro t i _ ht
  unfold collisionOuter
  refine foldl_invariant (fun s => s.map f = cs.map f) _ _ t ht ?_
  intro u j _ hu
  rw [collisionPair_frame f hf]
  exact hu

/-- The force pass writes net forces only. -/
theorem accumulateForces_frame {β : Type} (f : CircleObject F → β)
    (hf : ∀ c : CircleObject F, f (clearForce c) = f c)
    (sys : GravitySystem F) (sqrt : F → F) (cs : List (CircleObject F)) :
    (accumulateForces sys sqrt cs).map f = cs.map f := by
  have h := congrArg (List.map f) (accumulateForces_clearForce sys sqrt cs)
  simpa [List.map_map, Function.comp_def, hf] using h

/-- The method `updateCircle` keeps what neither the force pass nor the
integration writes. -/
theorem updateCircle_frame {β : Type} (f : CircleObject F → β)
    (hf : ∀ c : CircleObject F, f (clearForce c) = f c)
    (sys : GravitySystem F) (hint : ∀ c : CircleObject F, f (integrate sys c) = f c)
    (sqrt : F → F) (cs : List (CircleObject F)) :
    (updateCircle sys sqrt cs).map f = cs.map f := by
  unfold updateCircle
  rw [List.map_map, ← accumulateForces_frame f hf sys sqrt cs]
  apply List.map_congr_left
  intro c _
  exact hint c

/-- The inner loop of `updateVectorFieldComponent` for one probe that carries
the net force `v`: the forces of all bodies are added to `v`. -/
theorem probe_fold (sys : GravitySystem F) (sqrt : F → F) (rect : RectObject F) :
    ∀ (circles : List (CircleObject F)) (v : Vec2 F),
      circles.foldl
          (fun (acc : RectObject F) circle =>
            { acc with net_force := acc.net_force + probeForce sys sqrt acc circle })
          { rect with net_force := v } =
        { rect with net_force := v + (circles.map (probeForce sys sqrt rect)).sum }
  | [], v => by simp
  | c :: circles, v => by
      rw [List.foldl_cons, List.map_cons, List.sum_cons, ← add_assoc]
      exact probe_fold sys sqrt rect circles (v + probeForce sys sqrt rect c)

/-- The method `updateVectorFieldComponent` in closed form. -/
theorem updateVectorFieldComponent_eq (sys : GravitySystem F) (sqrt : F → F)
    (rects : List (RectObject F)) (circles : List (CircleObject F)) :
    updateVectorFieldComponent sys sqrt rects circles =
      rects.map fun rect =>
        { rect with net_force := (circles.map (probeForce sys sqrt rect)).sum } := by
  unfold updateVectorFieldComponent
  apply List.map_congr_left
  intro rect _
  rw [probe_fold sys sqrt rect circles 0, zero_add]

/-- Any number of steps keeps the masses. -/
theorem steps_mass (sys : GravitySystem F) (sqrt : F → F) :
    ∀ (N : Nat) (s : List (RectObject F) × List (CircleObject F)),
      (steps sys sqrt N s).2.map (fun c => c.mass) = s.2.map (fun c => c.mass)
  | 0, _ => rfl
  | N + 1, s => by
      show (steps sys sqrt N (update sys sqrt s)).2.map (fun c => c.mass) = _
      rw [steps_mass sys sqrt N (update sys sqrt s), update_mass]

/-- After the force pass, entry `m` is the entry on call with the net force
`netForce` of the vector on call. -/
theorem accumulateForces_get (sys : GravitySystem F) (sqrt : F → F)
    (cs : List (CircleObject F)) (m : Nat) :
    (accumulateForces sys sqrt cs)[m]? =
      (cs[m]?).map fun c => { c with net_force := netForce sys sqrt cs m } := by
  have hclr := accumulateForces_clearForce sys sqrt cs
  have hlen : (accumulateForces sys sqrt cs).length = cs.length := by
    have := congrArg List.length hclr
    simpa using this
  by_cases hm : m < cs.length
  · have hmS : m < (accumulateForces sys sqrt cs).length := by omega
    have h1 : (accumulateForces sys sqrt cs)[m]? = some (accumulateForces sys sqrt cs)[m] :=
      List.getElem?_eq_getElem hmS
    have h2 : cs[m]? = some cs[m] := List.getElem?_eq_getElem hm
    have hnf := (accumulate_first sys sqrt cs cs.length (le_refl _)).2 m _ hm h1
    have hc : clearForce (accumulateForces sys sqrt cs)[m] = clearForce cs[m] := by
      have h3 : ((accumulateForces sys sqrt cs).map clearForce)[m]? =
          (cs.map clearForce)[m]? := by rw [hclr]
      rw [List.getElem?_map, List.getElem?_map, h1, h2] at h3
      simpa using h3
    rw [h1, h2]
    simp only [Option.map_some', Option.some.injEq]
    have e1 := congrArg CircleObject.position hc
    have e2 := congrArg CircleObject.velocity hc
    have e3 := congrArg CircleObject.color hc
    have e4 := congrArg CircleObject.mass hc
    have e5 := congrArg CircleObject.radius hc
    simp only [clearForce] at e1 e2 e3 e4 e5
    cases hS : (accumulateForces sys sqrt cs)[m] with
    | mk p v nf col ms rd =>
      rw [hS] at e1 e2 e3 e4 e5 hnf
      simp only at e1 e2 e3 e4 e5 hnf
      rw [e1, e2, e3, e4, e5, hnf]
  · rw [List.getElem?_eq_none (by omega), List.getElem?_eq_none (by omega)]
    rfl

/-- After `updateCircle`, entry `m` is the integration of the entry on call
with the net force `netForce` of the vector on call. -/
theorem updateCircle_get (sys : GravitySystem F) (sqrt : F → F)
    (cs : List (CircleObject F)) (m : Nat) :
    (updateCircle sys sqrt cs)[m]? =
      (cs[m]?).map fun c => integrate sys { c with net_force := netForce sys sqrt cs m } := by
  unfold updateCircle
  rw [List.getElem?_map, accumulateForces_get, Option.map_map]
  rfl

/-- Writing `g i` to every entry `i < k` of a vector, in index order. -/
theorem foldl_set_range {α : Type} (g : Nat → α) (l : List α) :
    ∀ k, k ≤ l.length →
      ((List.range k).foldl (fun acc i => acc.set i (g i)) l).length = l.length ∧
        ∀ m, m < k →
          ((List.range k).foldl (fun acc i => acc.set i (g i)) l)[m]? = some (g m)
  | 0, _ => by
      refine ⟨rfl, ?_⟩
      intro m hm
      omega
  | k + 1, hk => by
      obtain ⟨ha, hb⟩ := foldl_set_range g l k (by omega)
      rw [List.range_succ, List.foldl_append, List.foldl_cons, List.foldl_nil]
      generalize (List.range k).foldl (fun acc i => acc.set i (g i)) l = T at ha hb
      refine ⟨by rw [List.length_set, ha], ?_⟩
      intro m hm
      by_cases hmk : m = k
      · subst hmk
        exact List.getElem?_set_self (by omega)
      · rw [List.getElem?_set_ne (Ne.symm hmk)]
        exact hb m (by omega)

/-- The method `initCircles` overwrites every entry. -/
theorem initCircles_eq (width height : F) (cs : List (CircleObject F)) :
    initCircles width height cs = (List.range cs.length).map (initCirclesBody width) := by
  obtain ⟨ha, hb⟩ := foldl_set_range (initCirclesBody width) cs cs.length (le_refl _)
  unfold initCircles
  apply List.ext_getElem?
  intro m
  by_cases hm : m < cs.length
  · rw [hb m hm, List.getElem?_map, List.getElem?_range hm]
    rfl
  · rw [List.getElem?_eq_none (by omega), List.getElem?_eq_none (by simp; omega)]

/-! ## The force law, over the reals -/

/-- Over the reals `len * len` is `dot r r`. -/
theorem softDist_real (r : Vec2 ℝ) :
    softDist Real.sqrt r = Vec2.dot r r + 1 / 1000000 := by
  have h : 0 ≤ Vec2.dot r r := by
    unfold Vec2.dot
    nlinarith [mul_self_nonneg r.x, mul_self_nonneg r.y]
  simp only [softDist, Vec2.length, softening, Real.mul_self_sqrt h]

/-- The cube of the inverse square root is the inverse of the power `3/2`. -/
theorem inv_sqrt_cube (D : ℝ) (hD : 0 < D) :
    1 / Real.sqrt D * (1 / Real.sqrt D) * (1 / Real.sqrt D) = 1 / D ^ ((3 : ℝ) / 2) := by
  have hs : 0 < Real.sqrt D := Real.sqrt_pos.mpr hD
  have h : D ^ ((3 : ℝ) / 2) = D * Real.sqrt D := by
    rw [show (3 : ℝ) / 2 = 1 + 1 / 2 by norm_num, Real.rpow_add hD, Real.rpow_one,
      ← Real.sqrt_eq_rpow]
  rw [h]
  have hne : Real.sqrt D ≠ 0 := ne_of_gt hs
  have hDne : D ≠ 0 := ne_of_gt hD
  field_simp

/-- The probe force over the reals, with the power `3/2` of the softened
squared distance. -/
theorem probeForce_real (sys : GravitySystem ℝ) (rect : RectObject ℝ) (b : CircleObject ℝ) :
    probeForce sys Real.sqrt rect b =
      Vec2.smul
        (sys.gravity * 1 * b.mass /
          (Vec2.dot (b.position - rect.position) (b.position - rect.position) + 1 / 1000000) ^
            ((3 : ℝ) / 2))
        (b.position - rect.position) := by
  have hD : 0 < Vec2.dot (b.position - rect.position) (b.position - rect.position) +
      1 / 1000000 := by
    rw [← softDist_real]
    exact lt_of_lt_of_le (by norm_num [softening]) (softening_le_softDist Real.sqrt _)
  have key := inv_sqrt_cube _ hD
  unfold probeForce inversesqrt
  simp only [softDist_real]
  ext
  · simp only [Vec2.smul_x, Vec2.muls_x]
    linear_combination (sys.gravity * 1 * b.mass * (b.position - rect.position).x) * key
  · simp only [Vec2.smul_y, Vec2.muls_y]
    linear_combination (sys.gravity * 1 * b.mass * (b.position - rect.position).y) * key

/-- The pair force over the reals, with the power `3/2` of the softened
squared distance. -/
theorem pairForce_real (sys : GravitySystem ℝ) (ci cj : CircleObject ℝ) :
    pairForce sys Real.sqrt ci cj =
      Vec2.smul
        (sys.gravity * ci.mass * cj.mass /
          (Vec2.dot (cj.position - ci.position) (cj.position - ci.position) + 1 / 1000000) ^
            ((3 : ℝ) / 2))
        (cj.position - ci.position) := by
  have hD : 0 < Vec2.dot (cj.position - ci.position) (cj.position - ci.position) +
      1 / 1000000 := by
    rw [← softDist_real]
    exact lt_of_lt_of_le (by norm_num [softening]) (softening_le_softDist Real.sqrt _)
  have key := inv_sqrt_cube _ hD
  unfold pairForce inversesqrt
  simp only [softDist_real]
  ext
  · simp only [Vec2.smul_x, Vec2.muls_x]
    linear_combination (sys.gravity * ci.mass * cj.mass * (cj.position - ci.position).x) * key
  · simp only [Vec2.smul_y, Vec2.muls_y]
    linear_combination (sys.gravity * ci.mass * cj.mass * (cj.position - ci.position).y) * key

/-- A body exerts no force on itself by index. -/
theorem pairTerm_self (sys : GravitySystem F) (sqrt : F → F) (cs : List (CircleObject F))
    (i : Nat) : pairTerm sys sqrt cs i i = 0 := by
  unfold pairTerm contrib
  cases cs[i]? <;> simp

/-! ## Independence of the net forces on entry -/

/-- The net force `netForce` reads positions and masses only. -/
theorem netForce_congr (sys : GravitySystem F) (sqrt : F → F)
    (cs1 cs2 : List (CircleObject F)) (h : cs1.map clearForce = cs2.map clearForce)
    (m : Nat) : netForce sys sqrt cs1 m = netForce sys sqrt cs2 m := by
  have hlen : cs1.length = cs2.length := by
    have := congrArg List.length h
    simpa using this
  have hm : (cs1[m]?).map clearForce = (cs2[m]?).map clearForce := by
    rw [← List.getElem?_map, ← List.getElem?_map, h]
  unfold netForce
  cases h1 : cs1[m]? with
  | none =>
    cases h2 : cs2[m]? with
    | none => rfl
    | some c2 => rw [h1, h2] at hm; simp at hm
  | some c1 =>
    cases h2 : cs2[m]? with
    | none => rw [h1, h2] at hm; simp at hm
    | some c2 =>
      rw [h1, h2] at hm
      simp only [Option.map_some', Option.some.injEq] at hm
      simp only [hlen]
      congr 1
      apply List.map_congr_left
      intro j _
      exact contrib_congr sys sqrt cs1 cs2 c1 c2 m j h hm

/-- The method `updateCircle` does not read the net forces on entry. -/
theorem updateCircle_congr (sys : GravitySystem F) (sqrt : F → F)
    (cs1 cs2 : List (CircleObject F)) (h : cs1.map clearForce = cs2.map clearForce) :
    updateCircle sys sqrt cs1 = updateCircle sys sqrt cs2 := by
  apply List.ext_getElem?
  intro m
  have hm : (cs1[m]?).map clearForce = (cs2[m]?).map clearForce := by
    rw [← List.getElem?_map, ← List.getElem?_map, h]
  rw [updateCircle_get, updateCircle_get, netForce_congr sys sqrt cs1 cs2 h m]
  cases h1 : cs1[m]? with
  | none =>
    cases h2 : cs2[m]? with
    | none => rfl
    | some c2 => rw [h1, h2] at hm; simp at hm
  | some c1 =>
    cases h2 : cs2[m]? with
    | none => rw [h1, h2] at hm; simp at hm
    | some c2 =>
      rw [h1, h2] at hm
      simp only [Option.map_some', Option.some.injEq] at hm
      simp only [Option.map_some', Option.some.injEq]
      have e : ∀ (c : CircleObject F) (v : Vec2 F),
          ({ c with net_force := v } : CircleObject F) =
            { clearForce c with net_force := v } := fun _ _ => rfl
      rw [e c1, e c2, hm]

/-- The method `updateVectorFieldComponent` reads the positions of the probes
only. -/
theorem updateVectorFieldComponent_congr (sys : GravitySystem F) (sqrt : F → F)
    (rects1 rects2 : List (RectObject F)) (circles : List (CircleObject F))
    (h : rects1.map (fun rect => rect.position) = rects2.map (fun rect => rect.position)) :
    updateVectorFieldComponent sys sqrt rects1 circles =
      updateVectorFieldComponent sys sqrt rects2 circles := by
  have e : ∀ rects : List (RectObject F),
      updateVectorFieldComponent sys sqrt rects circles =
        (rects.map (fun rect => rect.position)).map fun p =>
          { position := p
            net_force := (circles.map (probeForce sys sqrt ⟨p, 0⟩)).sum } := by
    intro rects
    rw [updateVectorFieldComponent_eq, List.map_map]
    rfl
  rw [e rects1, e rects2, h]

/-! ## Pairs on the x-axis -/

/-- The resolution of a pair keeps the length of the vector. -/
theorem collisionPair_length (sqrt : F → F) (cs : List (CircleObject F)) (i j : Nat) :
    (collisionPair sqrt cs i j).length = cs.length := by
  have h := congrArg List.length (collisionPair_mass sqrt cs i j)
  simpa using h

/-- A three-element vector has the pairs `(0, 1)`, `(0, 2)`, `(1, 2)`, resolved
in this order. -/
theorem collision_three (sqrt : F → F) (a b c : CircleObject F) :
    collision sqrt [a, b, c] = resolveInOrder sqrt [(0, 1), (0, 2), (1, 2)] [a, b, c] := by
  simp [collision, collisionOuter, resolveInOrder, List.range_succ, List.range'_succ,
    collisionPair_length]

/-- Two overlapping bodies of mass 100 and radius 50 on the x-axis, the second
to the right of the first and not moving away from it: the pair exchanges
`(1 + e) / 2` of the closing velocity. -/
theorem collisionPair_axis (cs : List (CircleObject ℝ)) (i j : Nat) (p q v w : ℝ)
    (hi : cs[i]? = some (sampleBody p 0 v 0)) (hj : cs[j]? = some (sampleBody q 0 w 0))
    (hpq : p < q) (hov : q - p ≤ 100) (hvw : w - v ≤ 0) :
    collisionPair Real.sqrt cs i j =
      (cs.set i (sampleBody p 0 (v + 199999 / 200000 * (w - v)) 0)).set j
        (sampleBody q 0 (w - 199999 / 200000 * (w - v)) 0) := by
  have hs : Real.sqrt ((q - p) * (q - p) + (0 - 0) * (0 - 0)) = q - p := by
    rw [sub_self, mul_zero, add_zero, Real.sqrt_mul_self (by linarith)]
  have hne : q - p ≠ 0 := by
    intro h
    linarith
  have h1 : ¬ (q - p) * (q - p) + (0 - 0) * (0 - 0) > (50 + 50) * (50 + 50) := by
    have : 0 < q - p := by linarith
    nlinarith
  have h2 : ¬ (w - v) * ((q - p) / (q - p)) + (0 - 0) * ((0 - 0) / (q - p)) > 0 := by
    rw [div_self hne]
    simp only [sub_self, zero_div, mul_zero, add_zero, mul_one, gt_iff_lt, not_lt]
    exact hvw
  unfold collisionPair
  rw [hi, hj]
  simp only [sampleBody, Vec2.dot, Vec2.sub_x, Vec2.sub_y, Vec2.divs_x, Vec2.divs_y, hs,
    if_neg h1, if_neg h2, restitution]
  congr 1
  · congr 1
    ext <;> first
      | rfl
      | (simp only [Vec2.sub_x, Vec2.sub_y, Vec2.divs_x, Vec2.divs_y, Vec2.smul_x, Vec2.smul_y]
         field_simp
         try ring)
  · ext <;> first
      | rfl
      | (simp only [Vec2.add_x, Vec2.add_y, Vec2.sub_x, Vec2.sub_y, Vec2.divs_x, Vec2.divs_y,
          Vec2.smul_x, Vec2.smul_y]
         field_simp
         try ring)

/-! ## The probe grid -/

/-- One row of a grid with ten columns: writing `g row col` to entry
`row * 10 + col` for `col < c`, after all earlier rows have been written. -/
theorem foldl_set_row {α : Type} (g : Nat → Nat → α) (row : Nat) (T : List α)
    (hT : row * 10 + 10 ≤ T.length)
    (hprev : ∀ m, m < row * 10 → T[m]? = some (g (m / 10) (m % 10))) :
    ∀ c, c ≤ 10 →
      ((List.range c).foldl (fun acc col => acc.set (row * 10 + col) (g row col)) T).length =
          T.length ∧
        ∀ m, m < row * 10 + c →
          ((List.range c).foldl (fun acc col => acc.set (row * 10 + col) (g row col)) T)[m]? =
            some (g (m / 10) (m % 10))
  | 0, _ => ⟨rfl, fun m hm => hprev m (by omega)⟩
  | c + 1, hc => by
      obtain ⟨ha, hb⟩ := foldl_set_row g row T hT hprev c (by omega)
      rw [List.range_succ, List.foldl_append, List.foldl_cons, List.foldl_nil]
      generalize (List.range c).foldl (fun acc col => acc.set (row * 10 + col) (g row col)) T =
        U at ha hb
      refine ⟨by rw [List.length_set, ha], ?_⟩
      intro m hm
      by_cases hmc : m = row * 10 + c
      · subst hmc
        rw [List.getElem?_set_self (by omega)]
        have h1 : (row * 10 + c) / 10 = row := by omega
        have h2 : (row * 10 + c) % 10 = c := by omega
        rw [h1, h2]
      · rw [List.getElem?_set_ne (Ne.symm hmc)]
        exact hb m (by omega)

/-- A grid of ten rows and ten columns written row by row. -/
theorem foldl_set_grid {α : Type} (g : Nat → Nat → α) (l : List α) (hl : 100 ≤ l.length) :
    ∀ r, r ≤ 10 →
      ((List.range r).foldl
          (fun acc row =>
            (List.range 10).foldl (fun acc col => acc.set (row * 10 + col) (g row col)) acc)
          l).length = l.length ∧
        ∀ m, m < r * 10 →
          ((List.range r).foldl
              (fun acc row =>
                (List.range 10).foldl (fun acc col => acc.set (row * 10 + col) (g row col)) acc)
              l)[m]? = some (g (m / 10) (m % 10))
  | 0, _ => ⟨rfl, fun m hm => by omega⟩
  | r + 1, hr => by
      obtain ⟨ha, hb⟩ := foldl_set_grid g l hl r (by omega)
      rw [List.range_succ r, List.foldl_append, List.foldl_cons, List.foldl_nil]
      generalize (List.range r).foldl
        (fun acc row =>
          (List.range 10).foldl (fun acc col => acc.set (row * 10 + col) (g row col)) acc)
        l = T at ha hb
      obtain ⟨hc, hd⟩ := foldl_set_row g r T (by omega) hb 10 (le_refl _)
      refine ⟨by rw [hc, ha], ?_⟩
      intro m hm
      exact hd m (by omega)

/-- The value that iteration `(row, col)` of `initVectorFieldComponent` writes
is the probe `probeAt`. -/
theorem written_probe_eq (width height : F) (row col : Nat) :
    ({ position :=
        ⟨-width * (1 / 2) + width / (NUM_RECT_COLS : F) * (1 / 2) +
            (col : F) * (width / (NUM_RECT_COLS : F)),
          -height * (1 / 2) + height / (NUM_RECT_ROWS : F) * (1 / 2) +
            (row : F) * (height / (NUM_RECT_ROWS : F))⟩
       net_force := 0 } : RectObject F) = probeAt width height row col := by
  have h1 : ((NUM_RECT_COLS : Nat) : F) = 10 := by norm_num [NUM_RECT_COLS]
  have h2 : ((NUM_RECT_ROWS : Nat) : F) = 10 := by norm_num [NUM_RECT_ROWS]
  rw [h1, h2]
  unfold probeAt
  congr 1
  ext
  · simp only
    ring
  · simp only
    ring

/-- The method `initVectorFieldComponent` on a vector of 100 probes, entry by
entry. -/
theorem initVectorFieldComponent_get (width height : F) (rects : List (RectObject F))
    (hlen : rects.length = 100) :
    (initVectorFieldComponent width height rects).length = 100 ∧
      ∀ m, m < 100 →
        (initVectorFieldComponent width height rects)[m]? =
          some (probeAt width height (m / 10) (m % 10)) := by
  have h := foldl_set_grid (fun row col => probeAt width height row col) rects
    (by omega) 10 (le_refl _)
  have e : initVectorFieldComponent width height rects =
      (List.range 10).foldl
        (fun acc row =>
          (List.range 10).foldl
            (fun acc col => acc.set (row * 10 + col) (probeAt width height row col)) acc)
        rects := by
    unfold initVectorFieldComponent
    simp only [written_probe_eq]
    rfl
  rw [e]
  exact ⟨by rw [h.1, hlen], fun m hm => h.2 m (by omega)⟩

/-- The centre of cell `k < 10` of ten equal cells of an interval of length
`w > 0` centred on `0` lies strictly inside the interval. -/
theorem grid_inside (w : F) (k : Nat) (hw : 0 < w) (hk : k < 10) :
    -w / 2 < -w / 2 + ((k : F) + 1 / 2) * (w / 10) ∧
      -w / 2 + ((k : F) + 1 / 2) * (w / 10) < w / 2 := by
  have h0 : (0 : F) ≤ (k : F) := Nat.cast_nonneg k
  have h9 : (k : F) ≤ 9 := by
    have : (k : F) ≤ ((9 : Nat) : F) := Nat.cast_le.mpr (by omega)
    simpa using this
  have hp : 0 < ((k : F) + 1 / 2) * (w / 10) := by positivity
  have hq : ((k : F) + 1 / 2) * (w / 10) ≤ (9 + 1 / 2) * (w / 10) := by
    apply mul_le_mul_of_nonneg_right
    · linarith
    · positivity
  constructor
  · linarith
  · linarith

/-! ## The two-body collision in cases -/

/-- The pass `collision` on two bodies: nothing when the pair does not overlap
or separates, else the impulse applied to both velocities. -/
theorem collision_two_cases (sqrt : F → F) (a b : CircleObject F) :
    collision sqrt [a, b] =
      if Vec2.dot (b.position - a.position) (b.position - a.position) >
          (a.radius + b.radius) * (a.radius + b.radius) then [a, b]
      else if normalVelocity sqrt a b > 0 then [a, b]
      else
        [{ a with velocity := a.velocity - (pairImpulse sqrt a b).divs a.mass },
          { b with velocity := b.velocity + (pairImpulse sqrt a b).divs b.mass }] := by
  rw [collision_two]
  unfold collisionPair
  simp only [List.getElem?_cons_zero, List.getElem?_cons_succ, List.set_cons_zero,
    List.set_cons_succ]
  rfl

/-- The kinetic energy of two bodies. -/
theorem kineticEnergy_two (a b : CircleObject F) :
    kineticEnergy [a, b] =
      1 / 2 * a.mass * Vec2.dot a.velocity a.velocity +
        1 / 2 * b.mass * Vec2.dot b.velocity b.velocity := by
  simp [kineticEnergy]

/-- The algebra of the energy: with a unit normal `(nx, ny)`, inverse masses
`ia`, `ib` and an impulse `K = -(1 + e) * vn * mu`, where
`mu * (ia + ib) = 1`, the kinetic energy drops by
`(1/2) * mu * (1 - e^2) * vn^2`. -/
theorem impulse_energy (ma mb ia ib mu e nx ny vax vay vbx vby K : F)
    (hia : ma * ia = 1) (hib : mb * ib = 1) (hn : nx * nx + ny * ny = 1)
    (hKS : K * (ia + ib) = -(1 + e) * ((vbx - vax) * nx + (vby - vay) * ny))
    (hKmu : K = -(1 + e) * ((vbx - vax) * nx + (vby - vay) * ny) * mu) :
    1 / 2 * ma * ((vax - K * nx * ia) * (vax - K * nx * ia) +
          (vay - K * ny * ia) * (vay - K * ny * ia)) +
        1 / 2 * mb * ((vbx + K * nx * ib) * (vbx + K * nx * ib) +
          (vby + K * ny * ib) * (vby + K * ny * ib)) =
      1 / 2 * ma * (vax * vax + vay * vay) + 1 / 2 * mb * (vbx * vbx + vby * vby) -
        1 / 2 * mu * (1 - e ^ 2) * ((vbx - vax) * nx + (vby - vay) * ny) ^ 2 := by
  linear_combination
    (-K * (vax * nx + vay * ny) + K ^ 2 * ia * (nx * nx + ny * ny) / 2) * hia +
    (K * (vbx * nx + vby * ny) + K ^ 2 * ib * (nx * nx + ny * ny) / 2) * hib +
    (K ^ 2 * (ia + ib) / 2) * hn + (K / 2) * hKS +
    ((1 - e) / 2 * ((vbx - vax) * nx + (vby - vay) * ny)) * hKmu

/-- Over the reals, for positive masses and distinct positions, an applied
impulse lowers the kinetic energy of the pair by
`(1/2) * (m_a m_b / (m_a + m_b)) * (1 - e^2) * vn^2`. -/
theorem collision_energy_impulse (a b : CircleObject ℝ) (ha : 0 < a.mass) (hb : 0 < b.mass)
    (hd : 0 < Vec2.dot (b.position - a.position) (b.position - a.position))
    (h1 : ¬ Vec2.dot (b.position - a.position) (b.position - a.position) >
      (a.radius + b.radius) * (a.radius + b.radius))
    (h2 : ¬ normalVelocity Real.sqrt a b > 0) :
    kineticEnergy (collision Real.sqrt [a, b]) =
      kineticEnergy [a, b] -
        1 / 2 * (a.mass * b.mass / (a.mass + b.mass)) * (1 - (99999 / 100000) ^ 2) *
          normalVelocity Real.sqrt a b ^ 2 := by
  have hma : a.mass ≠ 0 := ne_of_gt ha
  have hmb : b.mass ≠ 0 := ne_of_gt hb
  have hsum : a.mass + b.mass ≠ 0 := ne_of_gt (by linarith)
  have hS : a.mass⁻¹ + b.mass⁻¹ ≠ 0 := by
    have h3 : 0 < a.mass⁻¹ := inv_pos.mpr ha
    have h4 : 0 < b.mass⁻¹ := inv_pos.mpr hb
    exact ne_of_gt (by linarith)
  have hn := normal_unit (b.position - a.position) hd
  have hKS : -(1 + (99999 / 100000 : ℝ)) * normalVelocity Real.sqrt a b /
      (a.mass⁻¹ + b.mass⁻¹) * (a.mass⁻¹ + b.mass⁻¹) =
      -(1 + (99999 / 100000 : ℝ)) *
        (((b.velocity.x - a.velocity.x) * (contactNormal Real.sqrt a b).x +
          (b.velocity.y - a.velocity.y) * (contactNormal Real.sqrt a b).y)) :=
    div_mul_cancel₀ _ hS
  have hKmu : -(1 + (99999 / 100000 : ℝ)) * normalVelocity Real.sqrt a b /
      (a.mass⁻¹ + b.mass⁻¹) =
      -(1 + (99999 / 100000 : ℝ)) *
        (((b.velocity.x - a.velocity.x) * (contactNormal Real.sqrt a b).x +
          (b.velocity.y - a.velocity.y) * (contactNormal Real.sqrt a b).y)) *
        (a.mass * b.mass / (a.mass + b.mass)) := by
    have e : normalVelocity Real.sqrt a b =
        (b.velocity.x - a.velocity.x) * (contactNormal Real.sqrt a b).x +
          (b.velocity.y - a.velocity.y) * (contactNormal Real.sqrt a b).y := rfl
    have hmuS : a.mass * b.mass / (a.mass + b.mass) * (a.mass⁻¹ + b.mass⁻¹) = 1 := by
      field_simp
      ring
    rw [← e, div_eq_iff hS]
    linear_combination
      (-(-(1 + (99999 / 100000 : ℝ)) * normalVelocity Real.sqrt a b)) * hmuS
  have key := impulse_energy a.mass b.mass a.mass⁻¹ b.mass⁻¹
    (a.mass * b.mass / (a.mass + b.mass)) (99999 / 100000)
    (contactNormal Real.sqrt a b).x (contactNormal Real.sqrt a b).y
    a.velocity.x a.velocity.y b.velocity.x b.velocity.y
    (-(1 + (99999 / 100000 : ℝ)) * normalVelocity Real.sqrt a b / (a.mass⁻¹ + b.mass⁻¹))
    (mul_inv_cancel₀ hma) (mul_inv_cancel₀ hmb) hn hKS hKmu
  rw [collision_two_cases, if_neg h1, if_neg h2, kineticEnergy_two, kineticEnergy_two]
  have e : normalVelocity Real.sqrt a b =
      (b.velocity.x - a.velocity.x) * (contactNormal Real.sqrt a b).x +
        (b.velocity.y - a.velocity.y) * (contactNormal Real.sqrt a b).y := rfl
  simp only [Vec2.dot, Vec2.sub_x, Vec2.sub_y, Vec2.add_x, Vec2.add_y, Vec2.divs_x,
    Vec2.divs_y, pairImpulse, Vec2.smul_x, Vec2.smul_y, restitution]
  rw [e] at key ⊢
  linear_combination key

/-- Over the reals, for non-negative `G` and masses, the magnitude of the pair
force is at most `G m_i m_j / (dot r r + 1e-6)`. -/
theorem pairForce_norm_le (sys : GravitySystem ℝ) (ci cj : CircleObject ℝ)
    (hG : 0 ≤ sys.gravity) (hi : 0 ≤ ci.mass) (hj : 0 ≤ cj.mass) :
    Vec2.length Real.sqrt (pairForce sys Real.sqrt ci cj) ≤
      sys.gravity * ci.mass * cj.mass /
        (Vec2.dot (cj.position - ci.position) (cj.position - ci.position) + 1 / 1000000) := by
  have hM : 0 ≤ sys.gravity * ci.mass * cj.mass := mul_nonneg (mul_nonneg hG hi) hj
  unfold pairForce inversesqrt
  simp only [softDist_real]
  generalize sys.gravity * ci.mass * cj.mass = M at hM
  generalize cj.position - ci.position = r
  have hq : 0 ≤ Vec2.dot r r := by
    unfold Vec2.dot
    nlinarith [mul_self_nonneg r.x, mul_self_nonneg r.y]
  have hD : 0 < Vec2.dot r r + 1 / 1000000 := by linarith
  have hs : 0 < Real.sqrt (Vec2.dot r r + 1 / 1000000) := Real.sqrt_pos.mpr hD
  have hss : Real.sqrt (Vec2.dot r r + 1 / 1000000) * Real.sqrt (Vec2.dot r r + 1 / 1000000) =
      Vec2.dot r r + 1 / 1000000 := Real.mul_self_sqrt (le_of_lt hD)
  have hqs : Real.sqrt (Vec2.dot r r) ≤ Real.sqrt (Vec2.dot r r + 1 / 1000000) :=
    Real.sqrt_le_sqrt (by linarith)
  have hsq : 0 ≤ Real.sqrt (Vec2.dot r r) := Real.sqrt_nonneg _
  generalize Real.sqrt (Vec2.dot r r + 1 / 1000000) = s at hs hqs hss
  rw [← hss]
  have hk : 0 ≤ M / (s * s * s) := by positivity
  have hdot : Vec2.dot (Vec2.smul (M * (1 / s) * (1 / s)) (r.muls (1 / s)))
      (Vec2.smul (M * (1 / s) * (1 / s)) (r.muls (1 / s))) =
      M / (s * s * s) * (M / (s * s * s)) * Vec2.dot r r := by
    simp only [Vec2.dot, Vec2.smul_x, Vec2.smul_y, Vec2.muls_x, Vec2.muls_y]
    field_simp
    ring
  unfold Vec2.length
  rw [hdot, Real.sqrt_mul (mul_self_nonneg _), Real.sqrt_mul_self hk,
    div_mul_eq_mul_div, div_le_div_iff₀ (by positivity) (by positivity)]
  have h1 : M * Real.sqrt (Vec2.dot r r) ≤ M * s := mul_le_mul_of_nonneg_left hqs hM
  have h2 : 0 ≤ s * s := by positivity
  nlinarith [mul_le_mul_of_nonneg_right h1 h2]

/-- The two further bounds: for `M >= 0` and `q >= 0` the softened quotient
`M / (q + 1e-6)` is at most `M * 10^6`, and at most `M / q` when `q > 0`. -/
theorem softened_quotient_le (M q : ℝ) (hM : 0 ≤ M) (hq : 0 ≤ q) :
    M / (q + 1 / 1000000) ≤ M * 10 ^ 6 ∧ (0 < q → M / (q + 1 / 1000000) ≤ M / q) := by
  have hD : 0 < q + 1 / 1000000 := by linarith
  constructor
  · rw [div_le_iff₀ hD]
    nlinarith [mul_nonneg hM hq]
  · intro hq0
    exact div_le_div_of_nonneg_left hM hq0 (by linarith)

/-! ## The circle mesh -/

/-- A loop that appends `g i` in every iteration builds `flatMap g`. -/
theorem foldl_append_eq {α β : Type} (g : α → List β) :
    ∀ (l : List α) (init : List β),
      l.foldl (fun acc i => acc ++ g i) init = init ++ l.flatMap g
  | [], init => by simp
  | i :: l, init => by
      rw [List.foldl_cons, foldl_append_eq g l, List.flatMap_cons, List.append_assoc]

/-- The entries of a list built from one triple per index. -/
theorem flatMap_triple (f g h : Nat → Nat) :
    ∀ n,
      ((List.range n).flatMap fun i => [f i, g i, h i]).length = 3 * n ∧
        ∀ i, i < n →
          ((List.range n).flatMap fun i => [f i, g i, h i])[3 * i]? = some (f i) ∧
            ((List.range n).flatMap fun i => [f i, g i, h i])[3 * i + 1]? = some (g i) ∧
            ((List.range n).flatMap fun i => [f i, g i, h i])[3 * i + 2]? = some (h i)
  | 0 => ⟨rfl, fun i hi => by omega⟩
  | n + 1 => by
      obtain ⟨hl, hg⟩ := flatMap_triple f g h n
      rw [List.range_succ, List.flatMap_append, List.flatMap_singleton]
      generalize (List.range n).flatMap (fun i => [f i, g i, h i]) = L at hl hg
      refine ⟨by rw [List.length_append, hl]; simp; omega, ?_⟩
      intro i hi
      by_cases hin : i < n
      · obtain ⟨h0, h1, h2⟩ := hg i hin
        refine ⟨?_, ?_, ?_⟩
        · rw [List.getElem?_append_left (by omega)]
          exact h0
        · rw [List.getElem?_append_left (by omega)]
          exact h1
        · rw [List.getElem?_append_left (by omega)]
          exact h2
      · have hi2 : i = n := by omega
        subst hi2
        refine ⟨?_, ?_, ?_⟩
        · rw [List.getElem?_append_right (by omega), hl]
          simp
        · rw [List.getElem?_append_right (by omega), hl]
          have : 3 * i + 1 - 3 * i = 1 := by omega
          rw [this]
          rfl
        · rw [List.getElem?_append_right (by omega), hl]
          have : 3 * i + 2 - 3 * i = 2 := by omega
          rw [this]
          rfl

/-- The vertices and indices of `createCircleObject` in closed form. -/
theorem createCircleObject_eq (cos sin : F → F) (two_pi : F) (n_sides : Nat) :
    createCircleObject cos sin two_pi n_sides =
      ((List.range n_sides).map
          (fun i : Nat => (⟨⟨cos (two_pi / (n_sides : F) * (i : F)),
            sin (two_pi / (n_sides : F) * (i : F))⟩⟩ : Vertex F)) ++ [⟨⟨0, 0⟩⟩],
        (List.range n_sides).flatMap fun i =>
          [n_sides % 65536, i % 65536, (i + 1) % n_sides % 65536]) := by
  unfold createCircleObject
  simp only [List.append_assoc, List.singleton_append]
  rw [foldl_append_eq, foldl_append_eq]
  simp only [List.nil_append]
  congr 2
  induction List.range n_sides with
  | nil => rfl
  | cons i l ih => rw [List.flatMap_cons, List.map_cons, ih]; rfl

/-! ## Two bodies at the same position, and two bodies apart -/

/-- Two bodies at the same position exert no force on each other, for every
square-root function: `r = 0`, so `dir = r * invDist = 0`. -/
theorem pairForce_same_position (sys : GravitySystem F) (sqrt : F → F)
    (ci cj : CircleObject F) (h : cj.position = ci.position) :
    pairForce sys sqrt ci cj = 0 := by
  unfold pairForce
  rw [h, sub_self_eq_zero]
  ext <;> simp

/-- Two bodies at the same position are integrated with net force zero. -/
theorem updateCircle_same_position (sys : GravitySystem F) (sqrt : F → F)
    (a b : CircleObject F) (h : b.position = a.position) :
    updateCircle sys sqrt [a, b] =
      [integrate sys { a with net_force := 0 }, integrate sys { b with net_force := 0 }] := by
  unfold updateCircle
  rw [accumulateForces_two, pairForce_same_position sys sqrt a b h,
    pairForce_same_position sys sqrt b a h.symm]
  rfl

/-- The divisors of `collision` on two bodies are those of the pair `(0, 1)`. -/
theorem collisionDivisors_two (sqrt : F → F) (a b : CircleObject F) :
    collisionDivisors sqrt [a, b] = collisionPairDivisors sqrt [a, b] 0 1 := by
  simp [collisionDivisors, collisionOuterDivisors, collisionOuter, List.range_succ,
    List.range'_succ, collisionPair_length]

/-- Over the reals, on two bodies at the same position `collision` reaches
`n = d / dist` with `dist = 0`, whatever the radii, masses and velocities. -/
theorem collisionDivisors_same_position (a b : CircleObject ℝ)
    (h : b.position = a.position) :
    collisionDivisors Real.sqrt [a, b] =
      [0, a.mass, b.mass, 1 / a.mass + 1 / b.mass, a.mass, b.mass] := by
  have h1 : ¬ (0 : ℝ) > (a.radius + b.radius) * (a.radius + b.radius) :=
    not_lt.mpr (mul_self_nonneg _)
  rw [collisionDivisors_two]
  unfold collisionPairDivisors
  simp only [List.getElem?_cons_zero, List.getElem?_cons_succ, h, sub_self_eq_zero]
  have hd : Vec2.dot (0 : Vec2 ℝ) 0 = 0 := by simp [Vec2.dot]
  have hn : (0 : Vec2 ℝ).divs 0 = 0 := by
    ext <;> simp
  have hv : Vec2.dot (b.velocity - a.velocity) (0 : Vec2 ℝ) = 0 := by simp [Vec2.dot]
  simp only [hd, if_neg h1, Real.sqrt_zero, hn, hv, gt_iff_lt, lt_self_iff_false, if_false]

/-- Over the reals, on two bodies with positive masses at distinct positions
no division of `collision` has divisor zero. -/
theorem collisionDivisors_two_nonzero (a b : CircleObject ℝ) (ha : 0 < a.mass)
    (hb : 0 < b.mass)
    (hd : 0 < Vec2.dot (b.position - a.position) (b.position - a.position)) :
    (0 : ℝ) ∉ collisionDivisors Real.sqrt [a, b] := by
  have hs : 0 < Real.sqrt (Vec2.dot (b.position - a.position) (b.position - a.position)) :=
    Real.sqrt_pos.mpr hd
  have hsum : 0 < 1 / a.mass + 1 / b.mass := by
    have h3 : 0 < 1 / a.mass := one_div_pos.mpr ha
    have h4 : 0 < 1 / b.mass := one_div_pos.mpr hb
    linarith
  rw [collisionDivisors_two]
  unfold collisionPairDivisors
  simp only [List.getElem?_cons_zero, List.getElem?_cons_succ]
  split_ifs
  · simp
  · simp only [List.mem_singleton]
    exact ne_of_lt hs
  · simp only [List.mem_cons, List.mem_singleton, List.not_mem_nil, or_false, not_or]
    exact ⟨ne_of_lt hs, ne_of_lt ha, ne_of_lt hb, ne_of_lt hsum, ne_of_lt ha, ne_of_lt hb⟩

/-- The two velocity updates of `collision` on two bodies are multiples of
`d.divs dist`, and a direction `t` with `dot d t = 0` is not affected. -/
theorem velocity_change_shape (sqrt : F → F) (a b : CircleObject F) :
    ∃ ka kb : F,
      collision sqrt [a, b] =
          [{ a with
              velocity := a.velocity + Vec2.smul ka ((b.position - a.position).divs
                (sqrt (Vec2.dot (b.position - a.position) (b.position - a.position)))) },
            { b with
              velocity := b.velocity + Vec2.smul kb ((b.position - a.position).divs
                (sqrt (Vec2.dot (b.position - a.position) (b.position - a.position)))) }] ∧
        ∀ t : Vec2 F, Vec2.dot (b.position - a.position) t = 0 →
          (collision sqrt [a, b]).map (fun c => Vec2.dot c.velocity t) =
            [Vec2.dot a.velocity t, Vec2.dot b.velocity t] := by
  have hperp : ∀ (k : F) (v t : Vec2 F), Vec2.dot (b.position - a.position) t = 0 →
      Vec2.dot (v + Vec2.smul k ((b.position - a.position).divs
        (sqrt (Vec2.dot (b.position - a.position) (b.position - a.position))))) t =
        Vec2.dot v t := by
    intro k v t ht
    simp only [Vec2.dot, Vec2.add_x, Vec2.add_y, Vec2.smul_x, Vec2.smul_y, Vec2.divs_x,
      Vec2.divs_y] at ht ⊢
    have e : v.x * t.x + v.y * t.y +
        k * (((b.position - a.position).x * t.x + (b.position - a.position).y * t.y) /
          sqrt ((b.position - a.position).x * (b.position - a.position).x +
            (b.position - a.position).y * (b.position - a.position).y)) =
        v.x * t.x + v.y * t.y := by
      rw [ht]
      simp
    rw [← e]
    ring
  have hform : ∃ ka kb : F,
      collision sqrt [a, b] =
        [{ a with
            velocity := a.velocity + Vec2.smul ka ((b.position - a.position).divs
              (sqrt (Vec2.dot (b.position - a.position) (b.position - a.position)))) },
          { b with
            velocity := b.velocity + Vec2.smul kb ((b.position - a.position).divs
              (sqrt (Vec2.dot (b.position - a.position) (b.position - a.position)))) }] := by
    have hzero : ∀ v w : Vec2 F, v + Vec2.smul 0 w = v := by
      intro v w
      ext <;> simp
    rw [collision_two]
    unfold collisionPair
    simp only [List.getElem?_cons_zero, List.getElem?_cons_succ]
    split_ifs with h1 h2
    · exact ⟨0, 0, by rw [hzero, hzero]⟩
    · exact ⟨0, 0, by rw [hzero, hzero]⟩
    · refine ⟨-(-(1 + restitution) * Vec2.dot (b.velocity - a.velocity)
          ((b.position - a.position).divs
            (sqrt (Vec2.dot (b.position - a.position) (b.position - a.position)))) /
          (1 / a.mass + 1 / b.mass) / a.mass),
        -(1 + restitution) * Vec2.dot (b.velocity - a.velocity)
          ((b.position - a.position).divs
            (sqrt (Vec2.dot (b.position - a.position) (b.position - a.position)))) /
          (1 / a.mass + 1 / b.mass) / b.mass, ?_⟩
      simp only [List.set_cons_zero, List.set_cons_succ]
      congr 1
      · ext <;> simp <;> ring
      · congr 1
        ext <;> simp <;> ring
  obtain ⟨ka, kb, h⟩ := hform
  refine ⟨ka, kb, h, ?_⟩
  intro t ht
  rw [h]
  simp only [List.map_cons, List.map_nil, hperp _ _ t ht]

end Lemmas

/-! ## The claims -/

section Claims

variable {F : Type} [LinearOrderedField F]

/-- C1, at the failing input. Two bodies of mass 100 at `(0, 0)` with the same
velocity `(3, 4)`: `updateCircle` moves both to `(21/10, 14/5)`, and on these
`collision` executes `n = d / dist` with `dist = 0` (divisors
`0, 100, 100, 1/50, 100, 100`), so the code has no defined velocities and no
momentum to keep there. Wherever the two positions are distinct (and the
masses positive) no divisor is zero and `collision` keeps
`mass[0] * velocity[0] + mass[1] * velocity[1]`. -/
theorem collision_momentum_zero_divisor :
    ((0 : ℝ) < (sampleBody 0 0 3 4 : CircleObject ℝ).mass ∧
      updateCircle ⟨900, 7 / 10⟩ Real.sqrt
          [(sampleBody 0 0 3 4 : CircleObject ℝ), sampleBody 0 0 3 4] =
        [sampleBody (21 / 10) (14 / 5) 3 4, sampleBody (21 / 10) (14 / 5) 3 4] ∧
      collisionDivisors Real.sqrt
          [(sampleBody (21 / 10) (14 / 5) 3 4 : CircleObject ℝ),
            sampleBody (21 / 10) (14 / 5) 3 4] =
        [0, 100, 100, 1 / 50, 100, 100]) ∧
    ∀ a b : CircleObject ℝ, 0 < a.mass → 0 < b.mass →
      0 < Vec2.dot (b.position - a.position) (b.position - a.position) →
        (0 : ℝ) ∉ collisionDivisors Real.sqrt [a, b] ∧
          totalMomentum (collision Real.sqrt [a, b]) = totalMomentum [a, b] ∧
          totalMomentum [a, b] =
            Vec2.smul a.mass a.velocity + Vec2.smul b.mass b.velocity := by
  refine ⟨⟨by norm_num [sampleBody], ?_, ?_⟩, ?_⟩
  · rw [updateCircle_same_position _ _ _ _ rfl]
    simp only [integrate, sampleBody]
    congr 1
    · ext <;> simp <;> norm_num
    · congr 1
      ext <;> simp <;> norm_num
  · rw [collisionDivisors_same_position _ _ rfl]
    simp only [sampleBody]
    norm_num
  · intro a b ha hb hd
    refine ⟨collisionDivisors_two_nonzero a b ha hb hd, ?_, ?_⟩
    · apply collision_momentum
      intro c hc
      simp only [List.mem_cons, List.mem_singleton, List.not_mem_nil, or_false] at hc
      rcases hc with rfl | rfl
      · exact ne_of_gt ha
      · exact ne_of_gt hb
    · ext <;> simp [totalMomentum]

/-- C2, at the failing input. Two bodies of mass 100 at `(5, 5)` with the same
velocity `(1, 0)`, `G = 900`, `dt = 0.7`: after `updateCircle` both are at
`(57/10, 5)` and `collision` divides by `dist = 0`, so `0` is a divisor of the
first `update` and the code has no defined momentum after it. As long as no
step divides by zero, `N` steps keep the total momentum of bodies with
positive masses; the bodies written by `initCircles2` have total momentum
`(0, 0)`, and keep it under the same condition. -/
theorem update_momentum_zero_divisor :
    ((0 : ℝ) < (sampleBody 5 5 1 0 : CircleObject ℝ).mass ∧
      updateCircle ⟨900, 7 / 10⟩ Real.sqrt
          [(sampleBody 5 5 1 0 : CircleObject ℝ), sampleBody 5 5 1 0] =
        [sampleBody (57 / 10) 5 1 0, sampleBody (57 / 10) 5 1 0] ∧
      (0 : ℝ) ∈ updateDivisors ⟨900, 7 / 10⟩ Real.sqrt
        ([], [(sampleBody 5 5 1 0 : CircleObject ℝ), sampleBody 5 5 1 0])) ∧
    (∀ (sys : GravitySystem ℝ) (rects : List (RectObject ℝ))
        (circles : List (CircleObject ℝ)) (N : Nat),
      (∀ c ∈ circles, 0 < c.mass) →
        (∀ k, k < N →
          (0 : ℝ) ∉ updateDivisors sys Real.sqrt (steps sys Real.sqrt k (rects, circles))) →
          totalMomentum (steps sys Real.sqrt N (rects, circles)).2 = totalMomentum circles) ∧
    ∀ (sys : GravitySystem ℝ) (rects : List (RectObject ℝ)) (a b c : CircleObject ℝ)
        (N : Nat),
      totalMomentum (initCircles2 Real.sqrt [a, b, c]) = 0 ∧
        ((∀ k, k < N →
          (0 : ℝ) ∉ updateDivisors sys Real.sqrt
            (steps sys Real.sqrt k (rects, initCircles2 Real.sqrt [a, b, c]))) →
          totalMomentum
            (steps sys Real.sqrt N (rects, initCircles2 Real.sqrt [a, b, c])).2 = 0) := by
  have hupd : updateCircle ⟨900, 7 / 10⟩ Real.sqrt
      [(sampleBody 5 5 1 0 : CircleObject ℝ), sampleBody 5 5 1 0] =
      [sampleBody (57 / 10) 5 1 0, sampleBody (57 / 10) 5 1 0] := by
    rw [updateCircle_same_position _ _ _ _ rfl]
    simp only [integrate, sampleBody]
    congr 1
    · ext <;> norm_num
    · congr 1
      ext <;> norm_num
  refine ⟨⟨by norm_num [sampleBody], hupd, ?_⟩, ?_, ?_⟩
  · unfold updateDivisors
    simp only [hupd, collisionDivisors_same_position _ _ rfl]
    simp
  · intro sys rects circles N hm _
    exact steps_momentum sys Real.sqrt N (rects, circles) hm
  · intro sys rects a b c N
    refine ⟨initCircles2_momentum Real.sqrt a b c, ?_⟩
    intro _
    rw [steps_momentum sys Real.sqrt N (rects, initCircles2 Real.sqrt [a, b, c])
      (initCircles2_mass Real.sqrt a b c)]
    exact initCircles2_momentum Real.sqrt a b c

/-- C3. When every pair `i < j` of bodies has
`dot d d > (radius[i] + radius[j])^2` for `d = position[j] - position[i]`,
`collision` leaves the whole vector, and so every velocity, unchanged. -/
theorem collision_no_contact (sqrt : F → F) (cs : List (CircleObject F))
    (h : cs.Pairwise fun ci cj =>
      Vec2.dot (cj.position - ci.position) (cj.position - ci.position) >
        (ci.radius + cj.radius) ^ 2) :
    collision sqrt cs = cs := by
  rw [List.pairwise_iff_getElem] at h
  unfold collision
  refine foldl_invariant (fun s => s = cs) _ _ cs rfl ?_
  intro t i _ ht
  subst ht
  unfold collisionOuter
  refine foldl_invariant (fun s => s = t) _ _ t rfl ?_
  intro u j hj hu
  subst hu
  obtain ⟨h1, h2⟩ := List.mem_range'_1.mp hj
  have hjlt : j < u.length := by omega
  have hilt : i < u.length := by omega
  have hpair := h i j hilt hjlt (by omega)
  unfold collisionPair
  rw [List.getElem?_eq_getElem hilt, List.getElem?_eq_getElem hjlt]
  simp only
  rw [if_pos]
  rw [← sq]
  exact hpair

/-- Witness of C3: two bodies of radius 50 that are 1000 apart. -/
theorem collision_no_contact_witness :
    collision Rat.sqrt [bodyA, bodyC] = [bodyA, bodyC] :=
  collision_no_contact Rat.sqrt [bodyA, bodyC] (by
    simp only [List.pairwise_cons, List.mem_singleton, forall_eq, List.not_mem_nil,
      List.Pairwise.nil, and_true]
    refine ⟨?_, ?_⟩
    · norm_num [bodyA, bodyC, Vec2.dot]
    · intro a ha
      exact ha.elim)

/-- C4. For two overlapping bodies whose relative velocity along the normal
`n = d / |d|` is strictly positive, `collision` leaves the vector, and so both
velocities, unchanged. -/
theorem collision_separating (sqrt : F → F) (a b : CircleObject F)
    (_hoverlap : Vec2.dot (b.position - a.position) (b.position - a.position) ≤
      (a.radius + b.radius) ^ 2)
    (hvn : 0 < Vec2.dot (b.velocity - a.velocity)
      ((b.position - a.position).divs
        (sqrt (Vec2.dot (b.position - a.position) (b.position - a.position))))) :
    collision sqrt [a, b] = [a, b] ∧
      (collision sqrt [a, b]).map (fun c => c.velocity) = [a.velocity, b.velocity] := by
  have h : collision sqrt [a, b] = [a, b] := by
    rw [collision_two]
    unfold collisionPair
    simp only [List.getElem?_cons_zero, List.getElem?_cons_succ]
    split_ifs with h1
    · rfl
    · rfl
  exact ⟨h, by rw [h]; rfl⟩

/-- Witness of C4: two overlapping bodies, the second moving away from the
first with normal velocity 2. -/
theorem collision_separating_witness :
    collision Rat.sqrt [bodyA, bodyB] = [bodyA, bodyB] :=
  (collision_separating Rat.sqrt bodyA bodyB
    (by norm_num [bodyA, bodyB, Vec2.dot])
    (by norm_num [bodyA, bodyB, Vec2.dot, Vec2.divs])).1

/-- C5. The force that `updateCircle` adds to body `i` from body `j` is the
negation of the force it adds to body `j` from body `i`. -/
theorem pairForce_antisymm (sys : GravitySystem F) (sqrt : F → F) (ci cj : CircleObject F) :
    pairForce sys sqrt ci cj = -pairForce sys sqrt cj ci := by
  unfold pairForce
  simp only [softDist_swap sqrt ci.position cj.position]
  ext
  · simp only [Vec2.smul_x, Vec2.muls_x, Vec2.sub_x, Vec2.neg_x]
    ring
  · simp only [Vec2.smul_y, Vec2.muls_y, Vec2.sub_y, Vec2.neg_y]
    ring

/-- C6. When the two positions coincide, the softened squared distance is
`1e-6`, its square root (the one divisor of the computation) is `1e-3`, the
direction `r * invDist` is the zero vector and the force contribution is
exactly `(0, 0)`, in `updateCircle` and in `updateVectorFieldComponent`. -/
theorem force_at_coincident_positions (sys : GravitySystem ℝ) (ci cj circle : CircleObject ℝ)
    (rect : RectObject ℝ) (hij : cj.position = ci.position)
    (hrc : circle.position = rect.position) :
    (softDist Real.sqrt (cj.position - ci.position) = 1 / 1000000 ∧
      Real.sqrt (softDist Real.sqrt (cj.position - ci.position)) = 1 / 1000 ∧
      (cj.position - ci.position).muls
        (inversesqrt Real.sqrt (softDist Real.sqrt (cj.position - ci.position))) = 0 ∧
      pairForce sys Real.sqrt ci cj = 0) ∧
    (softDist Real.sqrt (circle.position - rect.position) = 1 / 1000000 ∧
      Real.sqrt (softDist Real.sqrt (circle.position - rect.position)) = 1 / 1000 ∧
      (circle.position - rect.position).muls
        (inversesqrt Real.sqrt (softDist Real.sqrt (circle.position - rect.position))) = 0 ∧
      probeForce sys Real.sqrt rect circle = 0) := by
  have hz : ∀ k : ℝ, (0 : Vec2 ℝ).muls k = 0 := by
    intro k
    ext <;> simp
  have hs : ∀ k : ℝ, Vec2.smul k (0 : Vec2 ℝ) = 0 := by
    intro k
    ext <;> simp
  refine ⟨?_, ?_⟩
  · unfold pairForce
    simp only [hij, sub_self_eq_zero, softDist_zero, sqrt_softening, hz, hs, and_self]
  · unfold probeForce
    simp only [hrc, sub_self_eq_zero, softDist_zero, sqrt_softening, hz, hs, and_self]

/-- Witness of C6: two bodies and a probe at the origin. -/
theorem force_at_coincident_positions_witness :
    pairForce ⟨900, 7 / 10⟩ Real.sqrt (sampleBody 0 0 1 2) (sampleBody 0 0 3 4) = 0 ∧
      probeForce ⟨900, 7 / 10⟩ Real.sqrt ⟨⟨0, 0⟩, ⟨5, 6⟩⟩ (sampleBody 0 0 1 2) = 0 :=
  have h := force_at_coincident_positions ⟨900, 7 / 10⟩ (sampleBody 0 0 1 2)
    (sampleBody 0 0 3 4) (sampleBody 0 0 1 2) ⟨⟨0, 0⟩, ⟨5, 6⟩⟩ rfl rfl
  ⟨h.1.2.2.2, h.2.2.2.2⟩

/-- C7. For every separation vector of two points, the softened squared
distance `len * len + 1e-6` of `updateCircle` and `updateVectorFieldComponent`
is at least `1e-6` and so strictly positive, and its square root, the divisor
of the inverse square root, is strictly positive: the force computation never
divides by zero. -/
theorem softDist_pos (r : Vec2 ℝ) :
    (1 / 1000000 : ℝ) ≤ softDist Real.sqrt r ∧ 0 < softDist Real.sqrt r ∧
      0 < Real.sqrt (softDist Real.sqrt r) ∧ Real.sqrt (softDist Real.sqrt r) ≠ 0 := by
  have h1 : (1 / 1000000 : ℝ) ≤ softDist Real.sqrt r := softening_le_softDist Real.sqrt r
  have h2 : 0 < softDist Real.sqrt r := by linarith
  have h3 : 0 < Real.sqrt (softDist Real.sqrt r) := Real.sqrt_pos.mpr h2
  exact ⟨h1, h2, h3, ne_of_gt h3⟩

/-- C8, at the failing input. Two bodies of mass 100 and radius 50 at rest at
the same position: the masses are positive and the radii non-negative, the
force pass leaves them where they are, and `collision` then divides `d` by
`dist = 0`: the divisors of the pair are `0, 100, 100, 1/50, 100, 100` and
`0` is a divisor of the `update` step. -/
theorem update_divides_by_zero :
    (∀ c ∈ [(sampleBody 0 0 0 0 : CircleObject ℝ), sampleBody 0 0 0 0],
        0 < c.mass ∧ 0 ≤ c.radius) ∧
      updateCircle ⟨900, 7 / 10⟩ Real.sqrt
          [(sampleBody 0 0 0 0 : CircleObject ℝ), sampleBody 0 0 0 0] =
        [sampleBody 0 0 0 0, sampleBody 0 0 0 0] ∧
      collisionDivisors Real.sqrt [(sampleBody 0 0 0 0 : CircleObject ℝ), sampleBody 0 0 0 0] =
        [0, 100, 100, 1 / 50, 100, 100] ∧
      (0 : ℝ) ∈ updateDivisors ⟨900, 7 / 10⟩ Real.sqrt
        ([], [(sampleBody 0 0 0 0 : CircleObject ℝ), sampleBody 0 0 0 0]) := by
  have hupd : updateCircle ⟨900, 7 / 10⟩ Real.sqrt
      [(sampleBody 0 0 0 0 : CircleObject ℝ), sampleBody 0 0 0 0] =
      [sampleBody 0 0 0 0, sampleBody 0 0 0 0] := by
    unfold updateCircle
    rw [accumulateForces_two]
    simp only [List.map_cons, List.map_nil, integrate, pairForce, sampleBody,
      sub_self_eq_zero]
    congr 1
    · ext <;> simp
    · congr 1
      ext <;> simp
  have hlen : ∀ i j, (collisionPair Real.sqrt
      [(sampleBody 0 0 0 0 : CircleObject ℝ), sampleBody 0 0 0 0] i j).length = 2 := by
    intro i j
    have h := congrArg List.length (collisionPair_mass Real.sqrt
      [(sampleBody 0 0 0 0 : CircleObject ℝ), sampleBody 0 0 0 0] i j)
    simpa using h
  have hdiv : collisionDivisors Real.sqrt
      [(sampleBody 0 0 0 0 : CircleObject ℝ), sampleBody 0 0 0 0] =
      [0, 100, 100, 1 / 50, 100, 100] := by
    simp [collisionDivisors, collisionOuterDivisors, collisionOuter, List.range_succ,
      List.range'_succ, hlen]
    simp [collisionPairDivisors, sampleBody, Vec2.dot, Vec2.divs]
    norm_num
  refine ⟨?_, hupd, hdiv, ?_⟩
  · intro c hc
    simp only [List.mem_cons, List.mem_singleton, List.not_mem_nil, or_false, or_self] at hc
    subst hc
    norm_num [sampleBody]
  · unfold updateDivisors
    simp only [hupd, hdiv]
    simp

/-- C9. For two overlapping bodies with positive masses, distinct positions
and closing normal velocity `vn <= 0`, after `collision` the normal component
of the relative velocity is `-e * vn` with `e = 0.99999`, which is `>= 0`. -/
theorem collision_reverses_closing_velocity (a b : CircleObject ℝ)
    (ha : 0 < a.mass) (hb : 0 < b.mass)
    (hd : 0 < Vec2.dot (b.position - a.position) (b.position - a.position))
    (hoverlap : Vec2.dot (b.position - a.position) (b.position - a.position) ≤
      (a.radius + b.radius) ^ 2)
    (hvn : Vec2.dot (b.velocity - a.velocity)
      ((b.position - a.position).divs
        (Real.sqrt (Vec2.dot (b.position - a.position) (b.position - a.position)))) ≤ 0) :
    ∃ a1 b1 : CircleObject ℝ, collision Real.sqrt [a, b] = [a1, b1] ∧
      Vec2.dot (b1.velocity - a1.velocity)
          ((b.position - a.position).divs
            (Real.sqrt (Vec2.dot (b.position - a.position) (b.position - a.position)))) =
        -(99999 / 100000) *
          Vec2.dot (b.velocity - a.velocity)
            ((b.position - a.position).divs
              (Real.sqrt (Vec2.dot (b.position - a.position) (b.position - a.position)))) ∧
      0 ≤ Vec2.dot (b1.velocity - a1.velocity)
          ((b.position - a.position).divs
            (Real.sqrt (Vec2.dot (b.position - a.position) (b.position - a.position)))) := by
  have h1 : ¬ Vec2.dot (b.position - a.position) (b.position - a.position) >
      (a.radius + b.radius) * (a.radius + b.radius) := by
    rw [← sq]
    exact not_lt.mpr hoverlap
  have h2 : ¬ Vec2.dot (b.velocity - a.velocity)
      ((b.position - a.position).divs
        (Real.sqrt (Vec2.dot (b.position - a.position) (b.position - a.position)))) > 0 :=
    not_lt.mpr hvn
  have hn := normal_unit (b.position - a.position) hd
  have hmsum : (1 / a.mass + 1 / b.mass) ≠ 0 := by
    have h3 : 0 < 1 / a.mass := one_div_pos.mpr ha
    have h4 : 0 < 1 / b.mass := one_div_pos.mpr hb
    exact ne_of_gt (by linarith)
  have hcol : collision Real.sqrt [a, b] = collisionPair Real.sqrt [a, b] 0 1 :=
    collision_two Real.sqrt a b
  unfold collisionPair at hcol
  simp only [List.getElem?_cons_zero, List.getElem?_cons_succ, if_neg h1, if_neg h2,
    List.set_cons_zero, List.set_cons_succ] at hcol
  refine ⟨_, _, hcol, ?_⟩
  have key := impulse_normal_velocity a.mass b.mass restitution
    ((b.position - a.position).x /
      Real.sqrt (Vec2.dot (b.position - a.position) (b.position - a.position)))
    ((b.position - a.position).y /
      Real.sqrt (Vec2.dot (b.position - a.position) (b.position - a.position)))
    a.velocity.x a.velocity.y b.velocity.x b.velocity.y _ hn
    (div_mul_cancel₀ _ hmsum)
  have hval : Vec2.dot
      (b.velocity + (Vec2.smul
          (-(1 + restitution) * Vec2.dot (b.velocity - a.velocity)
            ((b.position - a.position).divs
              (Real.sqrt (Vec2.dot (b.position - a.position) (b.position - a.position)))) /
            (1 / a.mass + 1 / b.mass))
          ((b.position - a.position).divs
            (Real.sqrt (Vec2.dot (b.position - a.position) (b.position - a.position))))).divs
          b.mass -
        (a.velocity - (Vec2.smul
          (-(1 + restitution) * Vec2.dot (b.velocity - a.velocity)
            ((b.position - a.position).divs
              (Real.sqrt (Vec2.dot (b.position - a.position) (b.position - a.position)))) /
            (1 / a.mass + 1 / b.mass))
          ((b.position - a.position).divs
            (Real.sqrt (Vec2.dot (b.position - a.position) (b.position - a.position))))).divs
          a.mass))
      ((b.position - a.position).divs
        (Real.sqrt (Vec2.dot (b.position - a.position) (b.position - a.position)))) =
      -(99999 / 100000) *
        Vec2.dot (b.velocity - a.velocity)
          ((b.position - a.position).divs
            (Real.sqrt (Vec2.dot (b.position - a.position) (b.position - a.position)))) := by
    have he : (restitution : ℝ) = 99999 / 100000 := rfl
    rw [← he]
    simp only [Vec2.dot, Vec2.add_x, Vec2.add_y, Vec2.sub_x, Vec2.sub_y, Vec2.divs_x,
      Vec2.divs_y, Vec2.smul_x, Vec2.smul_y] at key ⊢
    exact key
  refine ⟨hval, ?_⟩
  rw [hval]
  have := mul_nonneg (show (0 : ℝ) ≤ 99999 / 100000 by norm_num) (neg_nonneg.mpr hvn)
  linarith

/-- Witness of C9: a body at rest at the origin and a body at `(1, 0)` that
moves towards it with normal velocity `-2`. -/
theorem collision_reverses_closing_velocity_witness :
    ∃ a1 b1 : CircleObject ℝ,
      collision Real.sqrt [sampleBody 0 0 0 0, sampleBody 1 0 (-2) 3] = [a1, b1] ∧
        Vec2.dot (b1.velocity - a1.velocity) ⟨1, 0⟩ = 99999 / 50000 := by
  obtain ⟨a1, b1, h1, h2, _⟩ := collision_reverses_closing_velocity
    (sampleBody 0 0 0 0) (sampleBody 1 0 (-2) 3)
    (by norm_num [sampleBody]) (by norm_num [sampleBody])
    (by norm_num [sampleBody, Vec2.dot]) (by norm_num [sampleBody, Vec2.dot])
    (by norm_num [sampleBody, Vec2.dot, Vec2.divs])
  refine ⟨a1, b1, h1, ?_⟩
  have e1 : ((sampleBody 1 0 (-2) 3 : CircleObject ℝ).position -
      (sampleBody 0 0 0 0 : CircleObject ℝ).position).divs
      (Real.sqrt (Vec2.dot
        ((sampleBody 1 0 (-2) 3 : CircleObject ℝ).position -
          (sampleBody 0 0 0 0 : CircleObject ℝ).position)
        ((sampleBody 1 0 (-2) 3 : CircleObject ℝ).position -
          (sampleBody 0 0 0 0 : CircleObject ℝ).position))) = ⟨1, 0⟩ := by
    ext <;> norm_num [sampleBody, Vec2.dot, Vec2.divs]
  rw [e1] at h2
  rw [h2]
  norm_num [sampleBody, Vec2.dot]

/-- C10. Two bodies of mass 100 and radius 50 at rest at `(-400, y0)` and
`(400, y0)`, with `G = 900` and `dt = 0.7`: after one `update` the velocities
are `(a, 0)` and `(-a, 0)` for one `a > 0`, for every `y0`. -/
theorem two_body_first_step (y0 : ℝ) (rects : List (RectObject ℝ)) (nf0 nf1 : Vec2 ℝ)
    (col0 col1 : ℝ × ℝ × ℝ) :
    ∃ a : ℝ, 0 < a ∧ ∃ c0 c1 : CircleObject ℝ,
      (update ⟨900, 7 / 10⟩ Real.sqrt
        (rects, [⟨⟨-400, y0⟩, ⟨0, 0⟩, nf0, col0, 100, 50⟩,
          ⟨⟨400, y0⟩, ⟨0, 0⟩, nf1, col1, 100, 50⟩])).2 = [c0, c1] ∧
        c0.velocity = ⟨a, 0⟩ ∧ c1.velocity = ⟨-a, 0⟩ := by
  have hlen : Vec2.dot (⟨800, 0⟩ : Vec2 ℝ) ⟨800, 0⟩ = 800 ^ 2 := by
    norm_num [Vec2.dot]
  have hD : softDist Real.sqrt (⟨800, 0⟩ : Vec2 ℝ) = 640000 + 1 / 1000000 := by
    simp only [softDist, Vec2.length, hlen, softening]
    rw [Real.sqrt_sq (by norm_num)]
    norm_num
  have hs : (800 : ℝ) < Real.sqrt (softDist Real.sqrt (⟨800, 0⟩ : Vec2 ℝ)) := by
    rw [hD, Real.lt_sqrt (by norm_num)]
    norm_num
  have hr0 : (⟨400, y0⟩ : Vec2 ℝ) - ⟨-400, y0⟩ = ⟨800, 0⟩ := by
    ext <;> norm_num
  have hr1 : (⟨-400, y0⟩ : Vec2 ℝ) - ⟨400, y0⟩ = ⟨-800, 0⟩ := by
    ext <;> norm_num
  have hD1 : softDist Real.sqrt (⟨-800, 0⟩ : Vec2 ℝ) = softDist Real.sqrt (⟨800, 0⟩ : Vec2 ℝ) := by
    simp [softDist, Vec2.length, Vec2.dot]
  have hw0 : 0 < inversesqrt Real.sqrt (softDist Real.sqrt (⟨800, 0⟩ : Vec2 ℝ)) :=
    one_div_pos.mpr (lt_trans (by norm_num) hs)
  have hw1 : inversesqrt Real.sqrt (softDist Real.sqrt (⟨800, 0⟩ : Vec2 ℝ)) < 1 / 800 :=
    one_div_lt_one_div_of_lt (by norm_num) hs
  obtain ⟨w, hw⟩ : ∃ w, w = inversesqrt Real.sqrt (softDist Real.sqrt (⟨800, 0⟩ : Vec2 ℝ)) :=
    ⟨_, rfl⟩
  rw [← hw] at hw0 hw1
  have hw2 : w * w < 1 / 640000 := by nlinarith
  have hw3 : w * w * w < 1 / 512000000 := by nlinarith
  obtain ⟨a, ha⟩ : ∃ a, a = 900 * 100 * 100 * w * w * (800 * w) / 100 * (7 / 10) := ⟨_, rfl⟩
  have ha0 : 0 < a := by
    rw [ha]
    positivity
  have ha1 : a < 1 := by
    rw [ha]
    nlinarith
  have hupd : updateCircle ⟨900, 7 / 10⟩ Real.sqrt
      [⟨⟨-400, y0⟩, ⟨0, 0⟩, nf0, col0, 100, 50⟩, ⟨⟨400, y0⟩, ⟨0, 0⟩, nf1, col1, 100, 50⟩] =
      [⟨⟨-400 + a * (7 / 10), y0⟩, ⟨a, 0⟩, ⟨900 * 100 * 100 * w * w * (800 * w), 0⟩,
          col0, 100, 50⟩,
        ⟨⟨400 - a * (7 / 10), y0⟩, ⟨-a, 0⟩, ⟨-(900 * 100 * 100 * w * w * (800 * w)), 0⟩,
          col1, 100, 50⟩] := by
    unfold updateCircle
    rw [accumulateForces_two, ha]
    simp only [List.map_cons, List.map_nil, integrate, pairForce, hr0, hr1, hD1, ← hw]
    congr 1
    · ext <;> simp
    · congr 1
      ext <;> simp <;> ring
  have hcol : ∀ f0 f1 : Vec2 ℝ, collision Real.sqrt
      [⟨⟨-400 + a * (7 / 10), y0⟩, ⟨a, 0⟩, f0, col0, 100, 50⟩,
        ⟨⟨400 - a * (7 / 10), y0⟩, ⟨-a, 0⟩, f1, col1, 100, 50⟩] =
      [⟨⟨-400 + a * (7 / 10), y0⟩, ⟨a, 0⟩, f0, col0, 100, 50⟩,
        ⟨⟨400 - a * (7 / 10), y0⟩, ⟨-a, 0⟩, f1, col1, 100, 50⟩] := by
    intro f0 f1
    rw [collision_two]
    unfold collisionPair
    simp only [List.getElem?_cons_zero, List.getElem?_cons_succ]
    rw [if_pos]
    simp only [Vec2.dot, Vec2.sub_x, Vec2.sub_y]
    nlinarith
  refine ⟨a, ha0,
    ⟨⟨-400 + a * (7 / 10), y0⟩, ⟨a, 0⟩, ⟨900 * 100 * 100 * w * w * (800 * w), 0⟩, col0, 100, 50⟩,
    ⟨⟨400 - a * (7 / 10), y0⟩, ⟨-a, 0⟩, ⟨-(900 * 100 * 100 * w * w * (800 * w)), 0⟩,
      col1, 100, 50⟩, ?_, rfl, rfl⟩
  unfold update
  simp only
  rw [hupd, hcol]

/-- C11. In `updateCircle` the integration loop sets, for every body, the new
velocity to `velocity + (net_force / mass) * dt` and the new position to
`position + (new velocity) * dt`: the position uses the velocity of the same
step. In terms of the vector on call, entry `m` gets the net force
`netForce`, the velocity `v + (netForce / mass) * dt` and the position
`p + (v + (netForce / mass) * dt) * dt`. -/
theorem updateCircle_semi_implicit (sys : GravitySystem F) (sqrt : F → F)
    (cs : List (CircleObject F)) :
    updateCircle sys sqrt cs = (accumulateForces sys sqrt cs).map (integrate sys) ∧
      (∀ c : CircleObject F,
        (integrate sys c).velocity = c.velocity + (c.net_force.divs c.mass).muls sys.dt ∧
          (integrate sys c).position =
            c.position + (integrate sys c).velocity.muls sys.dt) ∧
      ∀ m : Nat,
        (updateCircle sys sqrt cs)[m]? =
          (cs[m]?).map fun c =>
            { c with
              net_force := netForce sys sqrt cs m
              velocity := c.velocity + ((netForce sys sqrt cs m).divs c.mass).muls sys.dt
              position :=
                c.position +
                  (c.velocity + ((netForce sys sqrt cs m).divs c.mass).muls sys.dt).muls
                    sys.dt } := by
  refine ⟨rfl, fun c => ⟨rfl, rfl⟩, ?_⟩
  intro m
  rw [updateCircle_get]
  rfl

/-- C12. After `updateCircle` the net force of body `i` is the sum over all
`j != i` of the pair force at the positions (and masses) the bodies had
before the call: `netForce` and `pairTerm` read the vector `cs` on call. -/
theorem updateCircle_forces_from_entry (sys : GravitySystem F) (sqrt : F → F)
    (cs : List (CircleObject F)) :
    (updateCircle sys sqrt cs).map (fun c => c.net_force) =
        (List.range cs.length).map (netForce sys sqrt cs) ∧
      (∀ i : Nat, netForce sys sqrt cs i =
        Finset.sum ((Finset.range cs.length).erase i) (pairTerm sys sqrt cs i)) ∧
      ∀ (i j : Nat) (ci cj : CircleObject F), i ≠ j → cs[i]? = some ci → cs[j]? = some cj →
        pairTerm sys sqrt cs i j = pairForce sys sqrt ci cj := by
  refine ⟨?_, ?_, ?_⟩
  · rw [← accumulateForces_net_force]
    unfold updateCircle
    rw [List.map_map]
    rfl
  · intro i
    rw [netForce_eq_sum, Finset.sum_erase _ (pairTerm_self sys sqrt cs i)]
  · intro i j ci cj hij hi hj
    simp [pairTerm, contrib, hi, hj, hij]

/-- Witness of C12: the force on the first of two bodies is the pair force
from the second. -/
theorem updateCircle_forces_from_entry_witness :
    pairTerm ⟨900, 7 / 10⟩ Rat.sqrt [bodyA, bodyC] 0 1 =
      pairForce ⟨900, 7 / 10⟩ Rat.sqrt bodyA bodyC :=
  (updateCircle_forces_from_entry ⟨900, 7 / 10⟩ Rat.sqrt [bodyA, bodyC]).2.2 0 1 bodyA bodyC
    (by decide) rfl rfl

/-- C13. The method `update` is the composition of the three components, each
applied once and without a branch: `update s = sample (resolve (integrate s))`. -/
theorem update_is_composition (sys : GravitySystem F) (sqrt : F → F)
    (s : List (RectObject F) × List (CircleObject F)) :
    update sys sqrt s =
      fieldSamplerSample sys sqrt (collisionResolverResolve sqrt (integratorStep sys sqrt s)) :=
  rfl

/-- C14. After `update` the net force of every probe is the sum over all
bodies `b` of `G * 1 * mass[b] * r / (|r|^2 + 1e-6)^(3/2)` with
`r = position[b] - probe.position`, for the bodies at the end of the same
step, that is after `updateCircle` and `collision`. -/
theorem update_probe_field (sys : GravitySystem ℝ)
    (s : List (RectObject ℝ) × List (CircleObject ℝ)) :
    (update sys Real.sqrt s).2 = collision Real.sqrt (updateCircle sys Real.sqrt s.2) ∧
      (update sys Real.sqrt s).1 =
        s.1.map fun rect =>
          { rect with
            net_force :=
              ((update sys Real.sqrt s).2.map fun b =>
                Vec2.smul
                  (sys.gravity * 1 * b.mass /
                    (Vec2.dot (b.position - rect.position) (b.position - rect.position) +
                      1 / 1000000) ^ ((3 : ℝ) / 2))
                  (b.position - rect.position)).sum } := by
  refine ⟨rfl, ?_⟩
  unfold update
  simp only
  rw [updateVectorFieldComponent_eq]
  apply List.map_congr_left
  intro rect _
  congr 2
  apply List.map_congr_left
  intro b _
  exact probeForce_real sys rect b

/-- C16. The method `update` keeps the position of every probe and the number
of probes; a probe has no other field than its net force. -/
theorem update_probes_fixed (sys : GravitySystem F) (sqrt : F → F)
    (s : List (RectObject F) × List (CircleObject F)) :
    (update sys sqrt s).1.map (fun rect => rect.position) =
        s.1.map (fun rect => rect.position) ∧
      (update sys sqrt s).1.length = s.1.length := by
  have h : (update sys sqrt s).1 = updateVectorFieldComponent sys sqrt s.1
      (collision sqrt (updateCircle sys sqrt s.2)) := rfl
  rw [h, updateVectorFieldComponent_eq]
  refine ⟨?_, by rw [List.length_map]⟩
  rw [List.map_map]
  rfl

/-- C17. The method `update` keeps the mass, the radius and the colour of
every body and the number of bodies. -/
theorem update_bodies_constant (sys : GravitySystem F) (sqrt : F → F)
    (s : List (RectObject F) × List (CircleObject F)) :
    (update sys sqrt s).2.map (fun c => (c.mass, c.radius, c.color)) =
        s.2.map (fun c => (c.mass, c.radius, c.color)) ∧
      (update sys sqrt s).2.length = s.2.length := by
  have h : (update sys sqrt s).2.map (fun c => (c.mass, c.radius, c.color)) =
      s.2.map (fun c => (c.mass, c.radius, c.color)) := by
    have h0 : (update sys sqrt s).2 = collision sqrt (updateCircle sys sqrt s.2) := rfl
    rw [h0, collision_frame (fun c : CircleObject F => (c.mass, c.radius, c.color))
        (fun _ _ => rfl),
      updateCircle_frame (fun c : CircleObject F => (c.mass, c.radius, c.color))
        (fun _ => rfl) sys (fun _ => rfl)]
  refine ⟨h, ?_⟩
  have := congrArg List.length h
  simpa using this

/-- C18. The pass `collision` corrects no position: it keeps the position,
the net force, the mass, the radius and the colour of every body and the
number of bodies, and writes velocities only. -/
theorem collision_writes_velocity_only (sqrt : F → F) (cs : List (CircleObject F)) :
    (collision sqrt cs).map (fun c => (c.position, c.net_force, c.mass, c.radius, c.color)) =
        cs.map (fun c => (c.position, c.net_force, c.mass, c.radius, c.color)) ∧
      (collision sqrt cs).length = cs.length := by
  have h := collision_frame
    (fun c : CircleObject F => (c.position, c.net_force, c.mass, c.radius, c.color))
    (fun _ _ => rfl) sqrt cs
  refine ⟨h, ?_⟩
  have := congrArg List.length h
  simpa using this

/-- C19. Over the reals the force that `updateCircle` computes for body `i`
from body `j` is the `ForceField` of the specification, that is
`G * mass[i] * mass[j] * r / (dot r r + 1e-6)^(3/2)` with
`r = position[j] - position[i]`; the `len * len` of the code is `dot r r`. -/
theorem pairForce_is_ForceField (sys : GravitySystem ℝ) (ci cj : CircleObject ℝ) :
    pairForce sys Real.sqrt ci cj =
        ForceField Real.sqrt sys.gravity (1 / 1000000) ci.position cj.position
          ci.mass cj.mass ∧
      pairForce sys Real.sqrt ci cj =
        Vec2.smul
          (sys.gravity * ci.mass * cj.mass /
            (Vec2.dot (cj.position - ci.position) (cj.position - ci.position) +
              1 / 1000000) ^ ((3 : ℝ) / 2))
          (cj.position - ci.position) ∧
      Vec2.length Real.sqrt (cj.position - ci.position) *
          Vec2.length Real.sqrt (cj.position - ci.position) =
        Vec2.dot (cj.position - ci.position) (cj.position - ci.position) := by
  refine ⟨?_, pairForce_real sys ci cj, ?_⟩
  · unfold pairForce ForceField inversesqrt
    simp only [softDist_real]
    ext
    · simp only [Vec2.smul_x, Vec2.muls_x]
      ring
    · simp only [Vec2.smul_y, Vec2.muls_y]
      ring
  · have h := softDist_real (cj.position - ci.position)
    unfold softDist at h
    simp only [softening] at h
    linarith

/-- C20. Every body written by `initCircles` and by `initCircles2` has mass
`100 > 0` and radius `50 >= 0`, and after any number of `update` steps from
those vectors every mass is still `100`. -/
theorem init_masses_positive :
    ((0 : F) < 100 ∧ (0 : F) ≤ 50) ∧
      (∀ (width height : F) (cs : List (CircleObject F)),
        (initCircles width height cs).map (fun c => (c.mass, c.radius)) =
          List.replicate cs.length (100, 50)) ∧
      (∀ (sqrt : F → F) (a b c : CircleObject F),
        (initCircles2 sqrt [a, b, c]).map (fun c => (c.mass, c.radius)) =
          List.replicate 3 (100, 50)) ∧
      (∀ (sys : GravitySystem F) (sqrt : F → F) (N : Nat) (rects : List (RectObject F))
          (width height : F) (cs : List (CircleObject F)),
        (steps sys sqrt N (rects, initCircles width height cs)).2.map (fun c => c.mass) =
          List.replicate cs.length 100) ∧
      ∀ (sys : GravitySystem F) (sqrt : F → F) (N : Nat) (rects : List (RectObject F))
          (a b c : CircleObject F),
        (steps sys sqrt N (rects, initCircles2 sqrt [a, b, c])).2.map (fun c => c.mass) =
          List.replicate 3 100 := by
  refine ⟨⟨by norm_num, by norm_num⟩, ?_, ?_, ?_, ?_⟩
  · intro width height cs
    rw [initCircles_eq, List.map_map]
    have h : ((fun c : CircleObject F => (c.mass, c.radius)) ∘ initCirclesBody width) =
        fun _ => ((100 : F), (50 : F)) := rfl
    rw [h, List.map_const', List.length_range]
  · intro sqrt a b c
    rfl
  · intro sys sqrt N rects width height cs
    rw [steps_mass, initCircles_eq, List.map_map]
    have h : ((fun c : CircleObject F => c.mass) ∘ initCirclesBody width) =
        fun _ => (100 : F) := rfl
    rw [h, List.map_const', List.length_range]
  · intro sys sqrt N rects a b c
    rw [steps_mass]
    rfl

/-- C21. The result of `update` does not depend on the net forces that the
bodies and the probes carry on entry: two states with the same probe
positions and the same bodies up to `net_force` have the same successor. -/
theorem update_ignores_net_force (sys : GravitySystem F) (sqrt : F → F)
    (s1 s2 : List (RectObject F) × List (CircleObject F))
    (hrects : s1.1.map (fun rect => rect.position) = s2.1.map (fun rect => rect.position))
    (hcircles : s1.2.map clearForce = s2.2.map clearForce) :
    update sys sqrt s1 = update sys sqrt s2 := by
  unfold update
  simp only
  rw [updateCircle_congr sys sqrt s1.2 s2.2 hcircles,
    updateVectorFieldComponent_congr sys sqrt s1.1 s2.1 _ hrects]

/-- Witness of C21: the same probe and bodies with different net forces. -/
theorem update_ignores_net_force_witness :
    update ⟨900, 7 / 10⟩ Rat.sqrt
        ([⟨⟨3, 4⟩, ⟨5, 6⟩⟩], [{ bodyA with net_force := ⟨1, 2⟩ }, bodyC]) =
      update ⟨900, 7 / 10⟩ Rat.sqrt
        ([⟨⟨3, 4⟩, ⟨0, 0⟩⟩], [bodyA, { bodyC with net_force := ⟨7, 8⟩ }]) :=
  update_ignores_net_force ⟨900, 7 / 10⟩ Rat.sqrt
    ([⟨⟨3, 4⟩, ⟨5, 6⟩⟩], [{ bodyA with net_force := ⟨1, 2⟩ }, bodyC])
    ([⟨⟨3, 4⟩, ⟨0, 0⟩⟩], [bodyA, { bodyC with net_force := ⟨7, 8⟩ }]) rfl rfl

/-- C22. The bodies that `update` produces do not depend on the probes: for
any two probe vectors and the same bodies the resulting bodies are equal,
after one step and after any number of steps. -/
theorem update_bodies_ignore_probes (sys : GravitySystem F) (sqrt : F → F)
    (rects1 rects2 : List (RectObject F)) (circles : List (CircleObject F)) :
    (update sys sqrt (rects1, circles)).2 = (update sys sqrt (rects2, circles)).2 ∧
      ∀ N : Nat, (steps sys sqrt N (rects1, circles)).2 = (steps sys sqrt N (rects2, circles)).2 := by
  refine ⟨rfl, ?_⟩
  intro N
  induction N generalizing rects1 rects2 circles with
  | zero => rfl
  | succ N ih =>
    show (steps sys sqrt N (update sys sqrt (rects1, circles))).2 =
      (steps sys sqrt N (update sys sqrt (rects2, circles))).2
    exact ih _ _ _

/-- C23. Collision resolution depends on the order of the pairs when three
bodies overlap at once: for the bodies of mass 100 and radius 50 at `(0, 0)`,
`(1, 0)` and `(2, 0)`, the first moving at `(1, 0)` and the others at rest,
all pairs overlap, `collision` resolves `(0, 1)`, `(0, 2)`, `(1, 2)` in this
order, and the order `(1, 2)`, `(0, 2)`, `(0, 1)` ends in other velocities. -/
theorem collision_order_dependent :
    ∃ a b c : CircleObject ℝ,
      (0 < a.mass ∧ 0 < b.mass ∧ 0 < c.mass) ∧
        [a, b, c].Pairwise (fun ci cj =>
          Vec2.dot (cj.position - ci.position) (cj.position - ci.position) ≤
            (ci.radius + cj.radius) ^ 2) ∧
        collision Real.sqrt [a, b, c] =
          resolveInOrder Real.sqrt [(0, 1), (0, 2), (1, 2)] [a, b, c] ∧
        (collision Real.sqrt [a, b, c]).map (fun x => x.velocity) =
          [⟨1 / 40000000000, 0⟩, ⟨79999400001 / 8000000000000000, 0⟩,
            ⟨7999920000399999 / 8000000000000000, 0⟩] ∧
        (resolveInOrder Real.sqrt [(1, 2), (0, 2), (0, 1)] [a, b, c]).map
            (fun x => x.velocity) =
          [⟨1 / 40000000000, 0⟩, ⟨199999 / 40000000000, 0⟩, ⟨199999 / 200000, 0⟩] ∧
        (collision Real.sqrt [a, b, c]).map (fun x => x.velocity) ≠
          (resolveInOrder Real.sqrt [(1, 2), (0, 2), (0, 1)] [a, b, c]).map
            (fun x => x.velocity) := by
  have hA1 : collisionPair Real.sqrt
      ([sampleBody 0 0 (1) 0, sampleBody 1 0 (0) 0, sampleBody 2 0 (0) 0] : List (CircleObject ℝ)) 0 1 =
      [sampleBody 0 0 (1 / 200000) 0, sampleBody 1 0 (199999 / 200000) 0, sampleBody 2 0 (0) 0] := by
    rw [collisionPair_axis _ 0 1 0 1 (1) (0) rfl rfl (by norm_num) (by norm_num)
      (by norm_num)]
    simp only [List.set_cons_zero, List.set_cons_succ]
    norm_num
  have hA2 : collisionPair Real.sqrt
      ([sampleBody 0 0 (1 / 200000) 0, sampleBody 1 0 (199999 / 200000) 0, sampleBody 2 0 (0) 0] : List (CircleObject ℝ)) 0 2 =
      [sampleBody 0 0 (1 / 40000000000) 0, sampleBody 1 0 (199999 / 200000) 0, sampleBody 2 0 (199999 / 40000000000) 0] := by
    rw [collisionPair_axis _ 0 2 0 2 (1 / 200000) (0) rfl rfl (by norm_num) (by norm_num)
      (by norm_num)]
    simp only [List.set_cons_zero, List.set_cons_succ]
    norm_num
  have hA3 : collisionPair Real.sqrt
      ([sampleBody 0 0 (1 / 40000000000) 0, sampleBody 1 0 (199999 / 200000) 0, sampleBody 2 0 (199999 / 40000000000) 0] : List (CircleObject ℝ)) 1 2 =
      [sampleBody 0 0 (1 / 40000000000) 0, sampleBody 1 0 (79999400001 / 8000000000000000) 0, sampleBody 2 0 (7999920000399999 / 8000000000000000) 0] := by
    rw [collisionPair_axis _ 1 2 1 2 (199999 / 200000) (199999 / 40000000000) rfl rfl (by norm_num) (by norm_num)
      (by norm_num)]
    simp only [List.set_cons_zero, List.set_cons_succ]
    norm_num
  have hB1 : collisionPair Real.sqrt
      ([sampleBody 0 0 (1) 0, sampleBody 1 0 (0) 0, sampleBody 2 0 (0) 0] : List (CircleObject ℝ)) 1 2 =
      [sampleBody 0 0 (1) 0, sampleBody 1 0 (0) 0, sampleBody 2 0 (0) 0] := by
    rw [collisionPair_axis _ 1 2 1 2 (0) (0) rfl rfl (by norm_num) (by norm_num)
      (by norm_num)]
    simp only [List.set_cons_zero, List.set_cons_succ]
    norm_num
  have hB2 : collisionPair Real.sqrt
      ([sampleBody 0 0 (1) 0, sampleBody 1 0 (0) 0, sampleBody 2 0 (0) 0] : List (CircleObject ℝ)) 0 2 =
      [sampleBody 0 0 (1 / 200000) 0, sampleBody 1 0 (0) 0, sampleBody 2 0 (199999 / 200000) 0] := by
    rw [collisionPair_axis _ 0 2 0 2 (1) (0) rfl rfl (by norm_num) (by norm_num)
      (by norm_num)]
    simp only [List.set_cons_zero, List.set_cons_succ]
    norm_num
  have hB3 : collisionPair Real.sqrt
      ([sampleBody 0 0 (1 / 200000) 0, sampleBody 1 0 (0) 0, sampleBody 2 0 (199999 / 200000) 0] : List (CircleObject ℝ)) 0 1 =
      [sampleBody 0 0 (1 / 40000000000) 0, sampleBody 1 0 (199999 / 40000000000) 0, sampleBody 2 0 (199999 / 200000) 0] := by
    rw [collisionPair_axis _ 0 1 0 1 (1 / 200000) (0) rfl rfl (by norm_num) (by norm_num)
      (by norm_num)]
    simp only [List.set_cons_zero, List.set_cons_succ]
    norm_num
  have hA : collision Real.sqrt
      ([sampleBody 0 0 (1) 0, sampleBody 1 0 (0) 0, sampleBody 2 0 (0) 0] : List (CircleObject ℝ)) =
      [sampleBody 0 0 (1 / 40000000000) 0, sampleBody 1 0 (79999400001 / 8000000000000000) 0, sampleBody 2 0 (7999920000399999 / 8000000000000000) 0] := by
    rw [collision_three]
    simp only [resolveInOrder, List.foldl_cons, List.foldl_nil]
    rw [hA1, hA2, hA3]
  have hB : resolveInOrder Real.sqrt [(1, 2), (0, 2), (0, 1)]
      ([sampleBody 0 0 (1) 0, sampleBody 1 0 (0) 0, sampleBody 2 0 (0) 0] : List (CircleObject ℝ)) =
      [sampleBody 0 0 (1 / 40000000000) 0, sampleBody 1 0 (199999 / 40000000000) 0, sampleBody 2 0 (199999 / 200000) 0] := by
    simp only [resolveInOrder, List.foldl_cons, List.foldl_nil]
    rw [hB1, hB2, hB3]
  refine ⟨sampleBody 0 0 (1) 0, sampleBody 1 0 (0) 0, sampleBody 2 0 (0) 0, ?_, ?_,
    collision_three Real.sqrt _ _ _, ?_, ?_, ?_⟩
  · norm_num [sampleBody]
  · simp only [List.pairwise_cons, List.mem_cons, List.mem_singleton, List.not_mem_nil,
      List.Pairwise.nil, and_true, forall_eq_or_imp, forall_eq, IsEmpty.forall_iff,
      implies_true]
    norm_num [sampleBody, Vec2.dot]
  · rw [hA]
    rfl
  · rw [hB]
    rfl
  · rw [hA, hB]
    simp only [List.map_cons, List.map_nil, sampleBody]
    intro h
    have h2 := congrArg (fun l : List (Vec2 ℝ) => l.map Vec2.x) h
    norm_num at h2

/-- C24. On a vector of 100 probes `initVectorFieldComponent` writes entry
`row * 10 + col` (`row, col < 10`) with the position
`(-W/2 + (col + 1/2) * W/10, -H/2 + (row + 1/2) * H/10)` and the net force
`(0, 0)`; every index below 100 belongs to exactly one `(row, col)`, columns
are `W/10` apart and rows `H/10`, and for a viewport with `W, H > 0` every
probe lies strictly inside the rectangle centred on the origin. -/
theorem probe_grid_layout (width height : F) (rects : List (RectObject F))
    (hlen : rects.length = 100) :
    initVectorFieldComponent width height rects =
        (List.range 100).map (fun idx => probeAt width height (idx / 10) (idx % 10)) ∧
      (∀ row col : Nat, row < 10 → col < 10 →
        (initVectorFieldComponent width height rects)[row * 10 + col]? =
          some (probeAt width height row col)) ∧
      (∀ idx : Nat, idx < 100 →
        ∃! p : Nat × Nat, p.1 < 10 ∧ p.2 < 10 ∧ p.1 * 10 + p.2 = idx) ∧
      (∀ row col : Nat,
        (probeAt width height row (col + 1)).position -
            (probeAt width height row col).position = ⟨width / 10, 0⟩ ∧
          (probeAt width height (row + 1) col).position -
            (probeAt width height row col).position = ⟨0, height / 10⟩) ∧
      (0 < width → 0 < height → ∀ row col : Nat, row < 10 → col < 10 →
        (-width / 2 < (probeAt width height row col).position.x ∧
          (probeAt width height row col).position.x < width / 2) ∧
        (-height / 2 < (probeAt width height row col).position.y ∧
          (probeAt width height row col).position.y < height / 2)) := by
  obtain ⟨hl, hget⟩ := initVectorFieldComponent_get width height rects hlen
  refine ⟨?_, ?_, ?_, ?_, ?_⟩
  · apply List.ext_getElem?
    intro m
    by_cases hm : m < 100
    · rw [hget m hm, List.getElem?_map, List.getElem?_range hm]
      rfl
    · rw [List.getElem?_eq_none (by omega), List.getElem?_eq_none (by simp; omega)]
  · intro row col hr hc
    have h1 : (row * 10 + col) / 10 = row := by omega
    have h2 : (row * 10 + col) % 10 = col := by omega
    rw [hget (row * 10 + col) (by omega), h1, h2]
  · intro idx hidx
    refine ⟨(idx / 10, idx % 10), ⟨by omega, by omega, by omega⟩, ?_⟩
    rintro ⟨r, c⟩ ⟨h1, h2, h3⟩
    simp only at h1 h2 h3
    have e1 : r = idx / 10 := by omega
    have e2 : c = idx % 10 := by omega
    rw [e1, e2]
  · intro row col
    constructor
    · ext
      · simp only [probeAt, Vec2.sub_x, Nat.cast_add, Nat.cast_one]
        ring
      · simp only [probeAt, Vec2.sub_y]
        ring
    · ext
      · simp only [probeAt, Vec2.sub_x]
        ring
      · simp only [probeAt, Vec2.sub_y, Nat.cast_add, Nat.cast_one]
        ring
  · intro hw hh row col hr hc
    exact ⟨grid_inside width col hw hc, grid_inside height row hh hr⟩

/-- Witness of C24: the window of `main`, 1000 by 800, and 100 probes. -/
theorem probe_grid_layout_witness :
    initVectorFieldComponent (1000 : ℚ) 800 (List.replicate 100 ⟨⟨0, 0⟩, ⟨0, 0⟩⟩) =
      (List.range 100).map (fun idx => probeAt 1000 800 (idx / 10) (idx % 10)) :=
  (probe_grid_layout (1000 : ℚ) 800 (List.replicate 100 ⟨⟨0, 0⟩, ⟨0, 0⟩⟩)
    (List.length_replicate _ _)).1

/-- C25. After the force pass of `updateCircle` the net forces of all bodies
add up to `(0, 0)`, for any masses, positions and `G`; the integration does
not write them, so the same holds after `updateCircle`. -/
theorem force_pass_sum_zero (sys : GravitySystem F) (sqrt : F → F)
    (cs : List (CircleObject F)) :
    ((accumulateForces sys sqrt cs).map (fun c => c.net_force)).sum = 0 ∧
      ((updateCircle sys sqrt cs).map (fun c => c.net_force)).sum = 0 := by
  refine ⟨accumulateForces_sum sys sqrt cs, ?_⟩
  have h : (updateCircle sys sqrt cs).map (fun c => c.net_force) =
      (accumulateForces sys sqrt cs).map (fun c => c.net_force) := by
    unfold updateCircle
    rw [List.map_map]
    rfl
  rw [h]
  exact accumulateForces_sum sys sqrt cs

/-- C26. For two bodies with positive masses at distinct positions,
`collision` never increases the kinetic energy of the pair; when a non-zero
impulse is applied (overlap and `vn < 0`) the energy strictly decreases, by
exactly `(1/2) * (m_i m_j / (m_i + m_j)) * (1 - e^2) * vn^2` with
`e = 0.99999`. -/
theorem collision_energy (a b : CircleObject ℝ) (ha : 0 < a.mass) (hb : 0 < b.mass)
    (hd : 0 < Vec2.dot (b.position - a.position) (b.position - a.position)) :
    kineticEnergy (collision Real.sqrt [a, b]) ≤ kineticEnergy [a, b] ∧
      (Vec2.dot (b.position - a.position) (b.position - a.position) ≤
          (a.radius + b.radius) ^ 2 →
        normalVelocity Real.sqrt a b < 0 →
          kineticEnergy [a, b] - kineticEnergy (collision Real.sqrt [a, b]) =
              1 / 2 * (a.mass * b.mass / (a.mass + b.mass)) * (1 - (99999 / 100000) ^ 2) *
                normalVelocity Real.sqrt a b ^ 2 ∧
            kineticEnergy (collision Real.sqrt [a, b]) < kineticEnergy [a, b]) := by
  have hmu : 0 < a.mass * b.mass / (a.mass + b.mass) := by positivity
  have hc : 0 < 1 / 2 * (a.mass * b.mass / (a.mass + b.mass)) *
      (1 - (99999 / 100000 : ℝ) ^ 2) := by
    have : (0 : ℝ) < 1 - (99999 / 100000) ^ 2 := by norm_num
    positivity
  refine ⟨?_, ?_⟩
  · by_cases h1 : Vec2.dot (b.position - a.position) (b.position - a.position) >
        (a.radius + b.radius) * (a.radius + b.radius)
    · rw [collision_two_cases, if_pos h1]
    · by_cases h2 : normalVelocity Real.sqrt a b > 0
      · rw [collision_two_cases, if_neg h1, if_pos h2]
      · rw [collision_energy_impulse a b ha hb hd h1 h2]
        have := mul_nonneg (le_of_lt hc) (sq_nonneg (normalVelocity Real.sqrt a b))
        linarith
  · intro hov hvn
    have h1 : ¬ Vec2.dot (b.position - a.position) (b.position - a.position) >
        (a.radius + b.radius) * (a.radius + b.radius) := by
      rw [← sq]
      exact not_lt.mpr hov
    have h2 : ¬ normalVelocity Real.sqrt a b > 0 := not_lt.mpr (le_of_lt hvn)
    rw [collision_energy_impulse a b ha hb hd h1 h2]
    have hsq : 0 < normalVelocity Real.sqrt a b ^ 2 := by
      have : normalVelocity Real.sqrt a b ≠ 0 := ne_of_lt hvn
      positivity
    have := mul_pos hc hsq
    constructor
    · ring
    · linarith

/-- Witness of C26: a body at rest at the origin and a body at `(1, 0)` that
moves towards it with normal velocity `-2`. -/
theorem collision_energy_witness :
    kineticEnergy (collision Real.sqrt [sampleBody 0 0 0 0, sampleBody 1 0 (-2) 3]) ≤
      kineticEnergy [(sampleBody 0 0 0 0 : CircleObject ℝ), sampleBody 1 0 (-2) 3] :=
  (collision_energy (sampleBody 0 0 0 0) (sampleBody 1 0 (-2) 3)
    (by norm_num [sampleBody]) (by norm_num [sampleBody])
    (by norm_num [sampleBody, Vec2.dot])).1

/-- C28. In a collision of two bodies with positive masses at distinct
positions no division has divisor zero, the velocity of each body changes by
a scalar multiple of the contact normal `n = d / |d|`, and its component along
any direction `t` perpendicular to the line of centres is unchanged. -/
theorem collision_change_along_normal (a b : CircleObject ℝ) (ha : 0 < a.mass)
    (hb : 0 < b.mass)
    (hd : 0 < Vec2.dot (b.position - a.position) (b.position - a.position)) :
    (0 : ℝ) ∉ collisionDivisors Real.sqrt [a, b] ∧
      ∃ ka kb : ℝ,
        collision Real.sqrt [a, b] =
            [{ a with velocity := a.velocity + Vec2.smul ka (contactNormal Real.sqrt a b) },
              { b with velocity := b.velocity + Vec2.smul kb (contactNormal Real.sqrt a b) }] ∧
          ∀ t : Vec2 ℝ, Vec2.dot (b.position - a.position) t = 0 →
            (collision Real.sqrt [a, b]).map (fun c => Vec2.dot c.velocity t) =
              [Vec2.dot a.velocity t, Vec2.dot b.velocity t] :=
  ⟨collisionDivisors_two_nonzero a b ha hb hd, velocity_change_shape Real.sqrt a b⟩

/-- Witness of C28: the body at `(1, 0)` closes in on the body at the origin
with velocity `(-2, 3)`; the components along `t = (0, 1)` stay `0` and `3`. -/
theorem collision_change_along_normal_witness :
    (collision Real.sqrt [sampleBody 0 0 0 0, sampleBody 1 0 (-2) 3]).map
        (fun c => Vec2.dot c.velocity ⟨0, 1⟩) =
      [Vec2.dot (sampleBody 0 0 0 0 : CircleObject ℝ).velocity ⟨0, 1⟩,
        Vec2.dot (sampleBody 1 0 (-2) 3 : CircleObject ℝ).velocity ⟨0, 1⟩] := by
  obtain ⟨_, _, _, _, h⟩ := collision_change_along_normal
    (sampleBody 0 0 0 0) (sampleBody 1 0 (-2) 3)
    (by norm_num [sampleBody]) (by norm_num [sampleBody])
    (by norm_num [sampleBody, Vec2.dot])
  exact h ⟨0, 1⟩ (by norm_num [sampleBody, Vec2.dot])

/-- C29. For non-negative `G` and masses and all positions the magnitude of a
pair force satisfies `|F| <= G m_i m_j / (|r|^2 + 1e-6) <= G m_i m_j * 10^6`,
and it does not exceed the Newtonian magnitude `G m_i m_j / |r|^2` (for
`|r| > 0`); the same holds for the force at a probe, with `m_i = 1`. -/
theorem force_magnitude_bounded (sys : GravitySystem ℝ) (ci cj : CircleObject ℝ)
    (rect : RectObject ℝ) (hG : 0 ≤ sys.gravity) (hi : 0 ≤ ci.mass) (hj : 0 ≤ cj.mass) :
    (Vec2.length Real.sqrt (pairForce sys Real.sqrt ci cj) ≤
        sys.gravity * ci.mass * cj.mass /
          (Vec2.dot (cj.position - ci.position) (cj.position - ci.position) + 1 / 1000000) ∧
      sys.gravity * ci.mass * cj.mass /
          (Vec2.dot (cj.position - ci.position) (cj.position - ci.position) + 1 / 1000000) ≤
        sys.gravity * ci.mass * cj.mass * 10 ^ 6 ∧
      (0 < Vec2.dot (cj.position - ci.position) (cj.position - ci.position) →
        Vec2.length Real.sqrt (pairForce sys Real.sqrt ci cj) ≤
          sys.gravity * ci.mass * cj.mass /
            Vec2.dot (cj.position - ci.position) (cj.position - ci.position))) ∧
    (Vec2.length Real.sqrt (probeForce sys Real.sqrt rect cj) ≤
        sys.gravity * 1 * cj.mass /
          (Vec2.dot (cj.position - rect.position) (cj.position - rect.position) +
            1 / 1000000) ∧
      sys.gravity * 1 * cj.mass /
          (Vec2.dot (cj.position - rect.position) (cj.position - rect.position) +
            1 / 1000000) ≤
        sys.gravity * 1 * cj.mass * 10 ^ 6 ∧
      (0 < Vec2.dot (cj.position - rect.position) (cj.position - rect.position) →
        Vec2.length Real.sqrt (probeForce sys Real.sqrt rect cj) ≤
          sys.gravity * 1 * cj.mass /
            Vec2.dot (cj.position - rect.position) (cj.position - rect.position))) := by
  have hdot : ∀ r : Vec2 ℝ, 0 ≤ Vec2.dot r r := by
    intro r
    unfold Vec2.dot
    nlinarith [mul_self_nonneg r.x, mul_self_nonneg r.y]
  have hM : 0 ≤ sys.gravity * ci.mass * cj.mass := mul_nonneg (mul_nonneg hG hi) hj
  have hM1 : 0 ≤ sys.gravity * 1 * cj.mass := mul_nonneg (mul_nonneg hG zero_le_one) hj
  have h1 := pairForce_norm_le sys ci cj hG hi hj
  have h2 := softened_quotient_le _ _ hM (hdot (cj.position - ci.position))
  have h3 : Vec2.length Real.sqrt (probeForce sys Real.sqrt rect cj) ≤
      sys.gravity * 1 * cj.mass /
        (Vec2.dot (cj.position - rect.position) (cj.position - rect.position) +
          1 / 1000000) :=
    pairForce_norm_le sys ⟨rect.position, 0, 0, (0, 0, 0), 1, 0⟩ cj hG zero_le_one hj
  have h4 := softened_quotient_le _ _ hM1 (hdot (cj.position - rect.position))
  exact ⟨⟨h1, h2.1, fun h => le_trans h1 (h2.2 h)⟩, ⟨h3, h4.1, fun h => le_trans h3 (h4.2 h)⟩⟩

/-- Witness of C29: the two bodies of the scenario of C10, 800 apart, with
`G = 900`. -/
theorem force_magnitude_bounded_witness :
    Vec2.length Real.sqrt
        (pairForce ⟨900, 7 / 10⟩ Real.sqrt (sampleBody (-400) 0 0 0) (sampleBody 400 0 0 0)) ≤
      900 * (sampleBody (-400) 0 0 0 : CircleObject ℝ).mass *
          (sampleBody 400 0 0 0 : CircleObject ℝ).mass /
        (Vec2.dot
            ((sampleBody 400 0 0 0 : CircleObject ℝ).position -
              (sampleBody (-400) 0 0 0 : CircleObject ℝ).position)
            ((sampleBody 400 0 0 0 : CircleObject ℝ).position -
              (sampleBody (-400) 0 0 0 : CircleObject ℝ).position) +
          1 / 1000000) :=
  (force_magnitude_bounded ⟨900, 7 / 10⟩ (sampleBody (-400) 0 0 0) (sampleBody 400 0 0 0)
    ⟨⟨0, 0⟩, ⟨0, 0⟩⟩ (by norm_num) (by norm_num [sampleBody]) (by norm_num [sampleBody])).1.1

/-- C30. For `1 <= n_sides < 65536`, `createCircleObject` produces
`n_sides + 1` vertices, the last being the origin, and `3 * n_sides` indices;
triangle `i` is `(n_sides, i, (i + 1) mod n_sides)`, and every index is
`<= n_sides`, so a valid position in the vertex list. -/
theorem createCircleObject_mesh (cos sin : F → F) (two_pi : F) (n_sides : Nat)
    (h1 : 1 ≤ n_sides) (h2 : n_sides < 65536) :
    (createCircleObject cos sin two_pi n_sides).1.length = n_sides + 1 ∧
      ((createCircleObject cos sin two_pi n_sides).1[n_sides]?).map (fun v => v.pos) =
        some ⟨0, 0⟩ ∧
      ((createCircleObject cos sin two_pi n_sides).1.getLast?).map (fun v => v.pos) =
        some ⟨0, 0⟩ ∧
      (createCircleObject cos sin two_pi n_sides).2.length = 3 * n_sides ∧
      (∀ i, i < n_sides →
        (createCircleObject cos sin two_pi n_sides).2[3 * i]? = some n_sides ∧
          (createCircleObject cos sin two_pi n_sides).2[3 * i + 1]? = some i ∧
          (createCircleObject cos sin two_pi n_sides).2[3 * i + 2]? =
            some ((i + 1) % n_sides)) ∧
      ∀ k ∈ (createCircleObject cos sin two_pi n_sides).2,
        k ≤ n_sides ∧ k < (createCircleObject cos sin two_pi n_sides).1.length := by
  have hpos : 0 < n_sides := h1
  rw [createCircleObject_eq]
  obtain ⟨hl, hg⟩ := flatMap_triple (fun _ => n_sides % 65536) (fun i => i % 65536)
    (fun i => (i + 1) % n_sides % 65536) n_sides
  have hvl : ((List.range n_sides).map
      (fun i : Nat => (⟨⟨cos (two_pi / (n_sides : F) * (i : F)),
        sin (two_pi / (n_sides : F) * (i : F))⟩⟩ : Vertex F))).length = n_sides := by
    rw [List.length_map, List.length_range]
  refine ⟨?_, ?_, ?_, hl, ?_, ?_⟩
  · simp
  · simp only
    rw [List.getElem?_append_right (by rw [hvl]), hvl, Nat.sub_self]
    rfl
  · simp only
    rw [List.getLast?_concat]
    rfl
  · intro i hi
    obtain ⟨e0, e1, e2⟩ := hg i hi
    have hmod : (i + 1) % n_sides < n_sides := Nat.mod_lt _ hpos
    simp only at e0 e1 e2 ⊢
    rw [e0, e1, e2, Nat.mod_eq_of_lt h2, Nat.mod_eq_of_lt (by omega : i < 65536),
      Nat.mod_eq_of_lt (by omega : (i + 1) % n_sides < 65536)]
    exact ⟨rfl, rfl, rfl⟩
  · intro k hk
    simp only [List.mem_flatMap, List.mem_range, List.mem_cons, List.mem_singleton,
      List.not_mem_nil, or_false] at hk
    obtain ⟨i, hi, hk⟩ := hk
    have hmod : (i + 1) % n_sides < n_sides := Nat.mod_lt _ hpos
    have hk2 : k ≤ n_sides := by
      rcases hk with rfl | rfl | rfl
      · exact Nat.mod_le _ _
      · exact le_trans (Nat.mod_le _ _) (le_of_lt hi)
      · exact le_trans (Nat.mod_le _ _) (le_of_lt hmod)
    refine ⟨hk2, ?_⟩
    simp only [List.length_append, hvl, List.length_singleton]
    omega

/-- Witness of C30: the circle of `main`, with `NUM_CIRCLE_SIDES = 32`. -/
theorem createCircleObject_mesh_witness :
    (createCircleObject Real.cos Real.sin (2 * Real.pi) 32).1.length = 32 + 1 ∧
      (createCircleObject Real.cos Real.sin (2 * Real.pi) 32).2.length = 3 * 32 :=
  have h := createCircleObject_mesh Real.cos Real.sin (2 * Real.pi) 32 (by decide) (by decide)
  ⟨h.1, h.2.2.2.1⟩

end Claims

end Gravity
